import Mathlib

/-!
Verification development for the task / time-log scheduling core of the
stalker repository (stalker/models/task.py).

The Python model is embedded shallowly: tasks and time logs live in a flat
arena (a map from numeric ids to records), mirroring the relational layout
of the source.  The ORM validators and attribute events of the source are
embedded as explicit state-transforming functions; recursion along the
parent chain or down the children tree is expressed with an explicit fuel
argument (the Python code recurses on the actual finite tree, so any fuel
larger than the tree depth gives the same result).

Code that lives in this repository but outside the provided sources
(ScheduleMixin.to_seconds, ScheduleMixin.least_meaningful_time_unit,
DateRangeMixin date reconciliation, check_circular_dependency) is modelled
from the specification; each such definition carries a doc comment that
starts with: Modelled from the spec.
-/

namespace Stalker

/-- Schedule units of the source: min, h, d, w, m, y. -/
inductive SUnit : Type
  | umin : SUnit
  | uh : SUnit
  | ud : SUnit
  | uw : SUnit
  | umo : SUnit
  | uy : SUnit
deriving DecidableEq, Repr

/-- Schedule models of the source: effort, length, duration. -/
inductive SModel : Type
  | effort : SModel
  | length : SModel
  | duration : SModel
deriving DecidableEq, Repr

/-- Modelled from the spec: the seconds represented by one schedule unit.
The spec declares working-hour calendars out of scope, and its expansion
scenario (a 5 calendar-day time log expanding a task to 5 days) fixes the
day at 86400 seconds, so the conversion is plain calendar time:
minute 60, hour 3600, day 86400, week 7 days, month 30 days, year 365 days. -/
def unitSeconds : SUnit → Int
  | SUnit.umin => 60
  | SUnit.uh => 3600
  | SUnit.ud => 86400
  | SUnit.uw => 604800
  | SUnit.umo => 2592000
  | SUnit.uy => 31536000

/-- Modelled from the spec: ScheduleMixin.to_seconds (not under src).
Converts a timing value and unit to seconds.  The schedule model is taken
as an argument as in the source signature; the spec keeps the conversion
identical for effort, length and duration (working hours are out of scope). -/
def to_seconds (timing : Nat) (unit : SUnit) (_model : SModel) : Int :=
  (timing : Int) * unitSeconds unit

/-- Modelled from the spec: ScheduleMixin.least_meaningful_time_unit (not
under src).  Returns the timing and the unit, among minute, hour, day,
week, month, year, that represent the given amount of seconds with a whole
timing using the biggest unit that divides it evenly; values that are not
whole minutes fall back to a floored minute count. -/
def least_meaningful_time_unit (seconds : Int) : Nat × SUnit :=
  let n : Nat := seconds.toNat
  if n % 31536000 = 0 ∧ n ≠ 0 then (n / 31536000, SUnit.uy)
  else if n % 2592000 = 0 ∧ n ≠ 0 then (n / 2592000, SUnit.umo)
  else if n % 604800 = 0 ∧ n ≠ 0 then (n / 604800, SUnit.uw)
  else if n % 86400 = 0 ∧ n ≠ 0 then (n / 86400, SUnit.ud)
  else if n % 3600 = 0 ∧ n ≠ 0 then (n / 3600, SUnit.uh)
  else (n / 60, SUnit.umin)

/-- Schedule constraint constants of the source. -/
def CONSTRAIN_NONE : Int := 0

/-- Schedule constraint start-fixed. -/
def CONSTRAIN_START : Int := 1

/-- Schedule constraint end-fixed. -/
def CONSTRAIN_END : Int := 2

/-- Schedule constraint both-fixed. -/
def CONSTRAIN_BOTH : Int := 3

/-- Stand-in for datetime.datetime.max used by Task._validate_children. -/
def dtepochMax : Int := 1000000000000

/-- Stand-in for datetime.datetime.min. -/
def dtepochMin : Int := -1000000000000

/-- One task row of the arena: the Task columns and relationship ids that
the verified behaviour reads or writes.  Dates are integer timestamps in
seconds.  The two nullable cache columns _schedule_seconds and
_total_logged_seconds are Options. -/
structure TaskData : Type where
  parentId : Option Nat
  childrenIds : List Nat
  dependsIds : List Nat
  resourcesIds : List Nat
  timeLogIds : List Nat
  schedule_timing : Nat
  schedule_unit : SUnit
  schedule_model : SModel
  schedule_constraint : Int
  sschedCache : Option Int
  stloggedCache : Option Int
  tstart : Int
  tend : Int
  priority : Int
deriving DecidableEq, Repr

/-- One TimeLog row: owning task, resource and the interval. -/
structure LogData : Type where
  taskId : Nat
  resourceId : Nat
  lstart : Int
  lend : Int
deriving DecidableEq, Repr

/-- The arena: task table, time-log table and the list of committed
time-log ids (used to enumerate the logs of one resource). -/
structure State : Type where
  task : Nat → Option TaskData
  tlog : Nat → Option LogData
  logIds : List Nat

/-- Replaces one task row. -/
def upTask (s : State) (i : Nat) (d : TaskData) : State :=
  { s with task := fun j => if j = i then some d else s.task j }

/-- Replaces one time-log row. -/
def upLog (s : State) (i : Nat) (d : LogData) : State :=
  { s with tlog := fun j => if j = i then some d else s.tlog j }

/-- Updates one task row in place when it exists. -/
def modTask (s : State) (i : Nat) (f : TaskData → TaskData) : State :=
  match s.task i with
  | none => s
  | some d => upTask s i (f d)

/-- Task.is_container: a task with at least one child. -/
def isContainer (s : State) (i : Nat) : Bool :=
  match s.task i with
  | none => false
  | some t => !t.childrenIds.isEmpty

/-- Task.is_leaf on an existing task. -/
def isLeaf (s : State) (i : Nat) : Bool :=
  !isContainer s i

/-- Total seconds of one time log, duration.days * 86400 + duration.seconds
of the source; with an integer-second validated interval this is the length
of the interval. -/
def logSeconds (l : LogData) : Int :=
  l.lend - l.lstart

/-- Sum of the time-log seconds of a task, the leaf branch of the
total_logged_seconds getter. -/
def leafLoggedSeconds (s : State) (t : TaskData) : Int :=
  t.timeLogIds.foldl
    (fun acc lid =>
      match s.tlog lid with
      | none => acc
      | some l => acc + logSeconds l) 0

/-- The ids of the committed time logs of one resource, the
resource.time_logs collection of the source. -/
def resourceLogIds (s : State) (rid : Nat) : List Nat :=
  s.logIds.filter (fun lid =>
    match s.tlog lid with
    | none => false
    | some l => l.resourceId = rid)

/-- Reads the _schedule_seconds cache column. -/
def schedCacheOf (s : State) (i : Nat) : Option Int :=
  (s.task i).bind TaskData.sschedCache

/-- Reads the _total_logged_seconds cache column. -/
def loggedCacheOf (s : State) (i : Nat) : Option Int :=
  (s.task i).bind TaskData.stloggedCache

/-- The summation loop of Task.update_schedule_info over the children: for
each child, update it first when it is a container, then add its
schedule_seconds and total_logged_seconds when they are truthy.  The Python
loop reads each getter twice (once for the truthiness test, once for the
addition), and the getters may mutate the state, so both reads are kept. -/
def usiLoop (upd : State → Nat → State) (sget tget : State → Nat → State × Int) :
    State → List Nat → Int → Int → State × Int × Int
  | s, [], ssum, lsum => (s, ssum, lsum)
  | s, c :: rest, ssum, lsum =>
    let s1 := if isContainer s c then upd s c else s
    let q1 := sget s1 c
    let q2 : State × Int :=
      if q1.2 ≠ 0 then
        let q := sget q1.1 c
        (q.1, ssum + q.2)
      else (q1.1, ssum)
    let q3 := tget q2.1 c
    let q4 : State × Int :=
      if q3.2 ≠ 0 then
        let q := tget q3.1 c
        (q.1, lsum + q.2)
      else (q3.1, lsum)
    usiLoop upd sget tget q4.1 rest q2.2 q4.2

mutual

/-- Task.update_schedule_info: for a container, recompute the two caches
from the children (recursing into container children); for a leaf, refresh
the caches from the live leaf values.  Fuel bounds the recursion depth; the
Python code recurses on the actual finite tree. -/
def updateScheduleInfo : Nat → State → Nat → State
  | 0, s, _ => s
  | Nat.succ f, s, i =>
    match s.task i with
    | none => s
    | some t =>
      if t.childrenIds.isEmpty then
        -- leaf branch: _schedule_seconds := schedule_seconds getter
        -- (to_seconds of the own timing) and _total_logged_seconds :=
        -- total_logged_seconds getter (sum of the own time logs)
        upTask s i { t with
          sschedCache := some (to_seconds t.schedule_timing t.schedule_unit t.schedule_model),
          stloggedCache := some (leafLoggedSeconds s t) }
      else
        let r := usiLoop
          (fun s c => updateScheduleInfo f s c)
          (fun s c => scheduleSecondsGet f s c)
          (fun s c => totalLoggedGet f s c)
          s t.childrenIds 0 0
        modTask r.1 i (fun t => { t with
          sschedCache := some r.2.1,
          stloggedCache := some r.2.2 })

/-- The schedule_seconds getter: a container returns the cache, lazily
recomputing it when it is missing or negative; a leaf converts its own
timing to seconds. -/
def scheduleSecondsGet : Nat → State → Nat → State × Int
  | 0, s, _ => (s, 0)
  | Nat.succ f, s, i =>
    match s.task i with
    | none => (s, 0)
    | some t =>
      if t.childrenIds.isEmpty then
        (s, to_seconds t.schedule_timing t.schedule_unit t.schedule_model)
      else
        match t.sschedCache with
        | none =>
          let s1 := updateScheduleInfo f s i
          (s1, (schedCacheOf s1 i).getD 0)
        | some v =>
          if v < 0 then
            let s1 := updateScheduleInfo f s i
            (s1, (schedCacheOf s1 i).getD 0)
          else (s, v)

/-- The total_logged_seconds getter: a leaf sums its time logs; a container
returns the cache, lazily recomputing it only when it is missing. -/
def totalLoggedGet : Nat → State → Nat → State × Int
  | 0, s, _ => (s, 0)
  | Nat.succ f, s, i =>
    match s.task i with
    | none => (s, 0)
    | some t =>
      if t.childrenIds.isEmpty then
        (s, leafLoggedSeconds s t)
      else
        match t.stloggedCache with
        | none =>
          let s1 := updateScheduleInfo f s i
          (s1, (loggedCacheOf s1 i).getD 0)
        | some v => (s, v)

end

/-- The total_logged_seconds setter: only containers accept the write; the
old truthy cache value is replaced and the difference is pushed into the
parent, cascading up the chain.  The own cache is written before the parent
is updated, as in the source. -/
def totalLoggedSet : Nat → State → Nat → Int → State
  | 0, s, _, _ => s
  | Nat.succ f, s, i, v =>
    if isContainer s i then
      match s.task i with
      | none => s
      | some t =>
        let old : Int := t.stloggedCache.getD 0
        let s1 := upTask s i { t with stloggedCache := some v }
        match t.parentId with
        | none => s1
        | some p =>
          let q := totalLoggedGet f s1 p
          totalLoggedSet f q.1 p (q.2 - old + v)
    else s

/-- The schedule_seconds setter: only containers accept the write; the
parent is updated first with the difference against the old truthy cache
value, cascading up the chain, and then the own cache is written, as in
the source. -/
def scheduleSecondsSet : Nat → State → Nat → Int → State
  | 0, s, _, _ => s
  | Nat.succ f, s, i, v =>
    if isContainer s i then
      match s.task i with
      | none => s
      | some t =>
        match t.parentId with
        | none => upTask s i { t with sschedCache := some v }
        | some p =>
          let current : Int := t.sschedCache.getD 0
          let q := scheduleSecondsGet f s p
          let s2 := scheduleSecondsSet f q.1 p (q.2 - current + v)
          modTask s2 i (fun t => { t with sschedCache := some v })
    else s

/-- Modelled from the spec: DateRangeMixin._validate_dates (not under src).
Section 4.1: given any two of start, end, duration the third is computed
and duration is always non-negative; setting start or end directly
recomputes the duration, so when both dates are given they are kept and an
end earlier than the start is pulled up to the start. -/
def validateDates : Option Int → Option Int → Option Int → Int × Int × Int
  | some a, some b, _ =>
    let b2 := if b < a then a else b
    (a, b2, b2 - a)
  | some a, none, some d =>
    let d2 := if d < 0 then 0 else d
    (a, a + d2, d2)
  | none, some b, some d =>
    let d2 := if d < 0 then 0 else d
    (b - d2, b, d2)
  | some a, none, none => (a, a, 0)
  | none, some b, none => (b, b, 0)
  | none, none, _ => (0, 0, 0)

mutual

/-- The overridden Task start setter: reconcile the dates with the new
start and then expand the parent range over the own range. -/
def taskStartSet : Nat → State → Nat → Int → State
  | 0, s, _, _ => s
  | Nat.succ f, s, i, v =>
    match s.task i with
    | none => s
    | some t =>
      let r := validateDates (some v) (some t.tend) (some (t.tend - t.tstart))
      let s1 := upTask s i { t with tstart := r.1, tend := r.2.1 }
      expandDates f s1 t.parentId r.1 r.2.1

/-- The overridden Task end setter. -/
def taskEndSet : Nat → State → Nat → Int → State
  | 0, s, _, _ => s
  | Nat.succ f, s, i, v =>
    match s.task i with
    | none => s
    | some t =>
      let r := validateDates (some t.tstart) (some v) (some (t.tend - t.tstart))
      let s1 := upTask s i { t with tstart := r.1, tend := r.2.1 }
      expandDates f s1 t.parentId r.1 r.2.1

/-- Task._expand_dates: widen the start and end of the target task so that
they cover the given interval; the writes go through the date setters and
therefore keep expanding upwards. -/
def expandDates : Nat → State → Option Nat → Int → Int → State
  | 0, s, _, _, _ => s
  | Nat.succ f, s, oi, st, en =>
    match oi with
    | none => s
    | some p =>
      match s.task p with
      | none => s
      | some tp =>
        let s1 := if tp.tstart > st then taskStartSet f s p st else s
        match s1.task p with
        | none => s1
        | some tp2 => if tp2.tend < en then taskEndSet f s1 p en else s1

end

/-- Task._reschedule: for a leaf, recompute the temporary dates from the
given timing and unit under the schedule constraint, and refresh the cached
_schedule_seconds from the schedule_seconds getter, which still reads the
stored timing and unit columns. -/
def reschedule (s : State) (i : Nat) (timingArg : Nat) (unitArg : SUnit) : State :=
  if isLeaf s i then
    match s.task i with
    | none => s
    | some t =>
      let dur : Int := (timingArg : Int) * unitSeconds unitArg
      let r :=
        if t.schedule_constraint = CONSTRAIN_NONE ∨ t.schedule_constraint = CONSTRAIN_START then
          validateDates (some t.tstart) none (some dur)
        else if t.schedule_constraint = CONSTRAIN_END then
          validateDates none (some t.tend) (some dur)
        else if t.schedule_constraint = CONSTRAIN_BOTH then
          validateDates (some t.tstart) (some t.tend) none
        else (t.tstart, t.tend, t.tend - t.tstart)
      upTask s i { t with
                   tstart := r.1, tend := r.2.1,
                   sschedCache := some (to_seconds t.schedule_timing t.schedule_unit t.schedule_model) }
  else s

/-- The assignment of schedule_timing: the validator reschedules with the
new timing and the old unit before the column is written, and the set event
then shifts the parent schedule_seconds by the old and new contributions. -/
def scheduleTimingSet (f : Nat) (s : State) (i : Nat) (v : Nat) : State :=
  match s.task i with
  | none => s
  | some t =>
    let s1 := reschedule s i v t.schedule_unit
    let s2 := modTask s1 i (fun t => { t with schedule_timing := v })
    match t.parentId with
    | none => s2
    | some p =>
      let oldSS := to_seconds t.schedule_timing t.schedule_unit t.schedule_model
      let newSS := to_seconds v t.schedule_unit t.schedule_model
      let q := scheduleSecondsGet f s2 p
      scheduleSecondsSet f q.1 p (q.2 - oldSS + newSS)

/-- The assignment of schedule_unit: the validator reschedules with the
current timing and the new unit when the timing is truthy, and the set
event shifts the parent schedule_seconds by the old and new contributions,
reading the truthy parent value twice as the source does. -/
def scheduleUnitSet (f : Nat) (s : State) (i : Nat) (v : SUnit) : State :=
  match s.task i with
  | none => s
  | some t =>
    let s1 := if t.schedule_timing ≠ 0 then reschedule s i t.schedule_timing v else s
    let s2 := modTask s1 i (fun t => { t with schedule_unit := v })
    match t.parentId with
    | none => s2
    | some p =>
      let oldSS := to_seconds t.schedule_timing t.schedule_unit t.schedule_model
      let newSS := to_seconds t.schedule_timing v t.schedule_model
      let q1 := scheduleSecondsGet f s2 p
      let pss : State × Int :=
        if q1.2 ≠ 0 then
          let q := scheduleSecondsGet f q1.1 p
          (q.1, q.2)
        else (q1.1, 0)
      scheduleSecondsSet f pss.1 p (pss.2 - oldSS + newSS)

/-- TimeLog._expand_task_schedule_timing: when the log duration exceeds the
remaining seconds of the task, computed before the log is committed, the
task timing and unit are regrown to the least meaningful unit covering the
current schedule plus the overage. -/
def expandTaskScheduleTiming (f : Nat) (s : State) (tid : Nat) (dur : Int) : State :=
  let q1 := scheduleSecondsGet f s tid
  let q2 := totalLoggedGet f q1.1 tid
  let remaining := q1.2 - q2.2
  if remaining < dur then
    let q3 := scheduleSecondsGet f q2.1 tid
    let lm := least_meaningful_time_unit (q3.2 + dur - remaining)
    let s4 := scheduleTimingSet f q3.1 tid lm.1
    scheduleUnitSet f s4 tid lm.2
  else q2.1

/-- The error taxonomy of the verified operations. -/
inductive PyErr : Type
  | typeErr : PyErr
  | valueErr : PyErr
  | overflowErr : PyErr
  | overBooked : Nat → Nat → PyErr
  | circular : PyErr
deriving DecidableEq, Repr

/-- The overbooking scan of TimeLog._validate_resource: among the existing
logs of the resource, skipping any log equal to the candidate in the sense
of the TimeLog equality (same task, resource, start and end; a candidate
whose task is still unset never equals an existing log), report the first
log that shares the start, shares the end, or has a boundary of the
candidate strictly inside its open interval. -/
def overbookConflict (s : State) (rid : Nat) (selfTask : Option Nat)
    (st en : Int) : Option Nat :=
  (resourceLogIds s rid).find? (fun lid =>
    match s.tlog lid with
    | none => false
    | some l =>
      let isSelf : Bool :=
        match selfTask with
        | none => false
        | some tk => decide (l.taskId = tk ∧ l.lstart = st ∧ l.lend = en)
      !isSelf && decide (l.lstart = st ∨ l.lend = en ∨
        (l.lstart < en ∧ en < l.lend) ∨ (l.lstart < st ∧ st < l.lend)))

/-- __update_total_logged_seconds__: push the difference between the new
and old duration of the log into the parent of the owning task. -/
def updateTotalLoggedEvent (f : Nat) (s : State) (lid : Nat)
    (newDur oldDur : Int) : State :=
  match s.tlog lid with
  | none => s
  | some l =>
    match s.task l.taskId with
    | none => s
    | some t =>
      match t.parentId with
      | none => s
      | some p =>
        let q := totalLoggedGet f s p
        totalLoggedSet f q.1 p (q.2 - oldDur + newDur)

/-- Event update_time_log_task_parents_for_start: fired when the start
column is written; it reads the current end column. -/
def tlogStartEvent (f : Nat) (s : State) (lid : Nat) (oldStart newStart : Int) : State :=
  match s.tlog lid with
  | none => s
  | some l =>
    let oldDur := l.lend - oldStart
    let newDur := l.lend - newStart
    updateTotalLoggedEvent f s lid newDur oldDur

/-- Event update_time_log_task_parents_for_end: fired when the end column
is written; it reads the current start column. -/
def tlogEndEvent (f : Nat) (s : State) (lid : Nat) (oldEnd newEnd : Int) : State :=
  match s.tlog lid with
  | none => s
  | some l =>
    let oldDur := oldEnd - l.lstart
    let newDur := newEnd - l.lstart
    updateTotalLoggedEvent f s lid newDur oldDur

/-- Mutation of the start of an existing TimeLog: the date mixin setter
reconciles the dates; the start column write fires its set event while the
end column still holds the old value, then the end column write fires its
own event.  No overbooking check runs on this path. -/
def timeLogSetStart (f : Nat) (s : State) (lid : Nat) (v : Int) : State :=
  match s.tlog lid with
  | none => s
  | some l =>
    let r := validateDates (some v) (some l.lend) (some (l.lend - l.lstart))
    let s1 := upLog s lid { l with lstart := r.1 }
    let s2 := tlogStartEvent f s1 lid l.lstart r.1
    match s2.tlog lid with
    | none => s2
    | some l2 =>
      let s3 := upLog s2 lid { l2 with lend := r.2.1 }
      tlogEndEvent f s3 lid l.lend r.2.1

/-- Creation of a TimeLog, the __init__ order of the source: reconcile the
dates, validate the resource with the overbooking scan (the task reference
of the candidate is still unset there), validate the task which expands the
task schedule, then commit the log; the commit appends the log to the task
collection and fires Task._validate_time_logs, which adds the log seconds
to the parent total. -/
def createTimeLog (f : Nat) (s : State) (newId tid rid : Nat)
    (st en : Int) : Except PyErr State :=
  let r := validateDates (some st) (some en) none
  let st2 := r.1
  let en2 := r.2.1
  match overbookConflict s rid none st2 en2 with
  | some lid => Except.error (PyErr.overBooked rid lid)
  | none =>
    match s.task tid with
    | none => Except.error PyErr.typeErr
    | some t =>
      let s1 := expandTaskScheduleTiming f s tid (en2 - st2)
      let s2 := upLog s1 newId { taskId := tid, resourceId := rid, lstart := st2, lend := en2 }
      let s3 := { s2 with logIds := s2.logIds ++ [newId] }
      let s4 := modTask s3 tid (fun t => { t with timeLogIds := t.timeLogIds ++ [newId] })
      match t.parentId with
      | none => Except.ok s4
      | some p =>
        let q := totalLoggedGet f s4 p
        Except.ok (totalLoggedSet f q.1 p (q.2 + (en2 - st2)))

/-- The children relation read by the cycle checker. -/
def childrenOf (s : State) (i : Nat) : List Nat :=
  match s.task i with
  | none => []
  | some t => t.childrenIds

/-- The depends relation read by the cycle checker. -/
def dependsOf (s : State) (i : Nat) : List Nat :=
  match s.task i with
  | none => []
  | some t => t.dependsIds

/-- Modelled from the spec: check_circular_dependency (not under src), the
shared cycle checker of section 4.4: walk the given relation transitively
from the first task and report whether the second task is reachable. -/
def reachableVia (rel : State → Nat → List Nat) (s : State) :
    Nat → Nat → Nat → Bool
  | 0, _, _ => false
  | Nat.succ f, a, target =>
    (rel s a).any (fun x => x = target || reachableVia rel s f x target)

/-- The ancestor chain of a task, nearest parent first. -/
def ancestorIds : Nat → State → Nat → List Nat
  | 0, _, _ => []
  | Nat.succ f, s, i =>
    match s.task i with
    | none => []
    | some t =>
      match t.parentId with
      | none => []
      | some p => p :: ancestorIds f s p

/-- Task._validate_depends, run when a dependency is appended: reject when
the checker finds the task reachable from the new dependency through
depends or through children, or when some ancestor of the task is a direct
dependency of the new dependency; the collection is only extended on
success, so a rejection leaves the depends set unchanged. -/
def addDepends (f : Nat) (s : State) (tid did : Nat) : Except PyErr State :=
  match s.task tid, s.task did with
  | some _, some _ =>
    if reachableVia dependsOf s f did tid then Except.error PyErr.circular
    else if reachableVia childrenOf s f did tid then Except.error PyErr.circular
    else if (ancestorIds f s tid).any (fun p => decide (p ∈ dependsOf s did)) then
      Except.error PyErr.circular
    else
      Except.ok (modTask s tid (fun t => { t with dependsIds := t.dependsIds ++ [did] }))
  | _, _ => Except.error PyErr.typeErr

/-- Task._validate_children, fired when child c is appended to the
children collection of task i; at validation time c is not yet in the
collection.  The resources are emptied; on the first ever child the caches
are replaced by the child values, the raw parent schedule cache column is
shifted by the old and new contribution, and the dates are reset to the
sentinels before being expanded over the child range. -/
def validateChildren (f : Nat) (s : State) (i c : Nat) : State :=
  match s.task i with
  | none => s
  | some t =>
    let s1 := upTask s i { t with resourcesIds := [] }
    let s2 :=
      if t.childrenIds.isEmpty then
        let q1 := scheduleSecondsGet f s1 i
        let oldSched := q1.2
        let q2 := totalLoggedGet f q1.1 c
        let s3 := modTask q2.1 i (fun t => { t with stloggedCache := some q2.2 })
        let q3 := scheduleSecondsGet f s3 c
        let s4 := modTask q3.1 i (fun t => { t with sschedCache := some q3.2 })
        let s5 :=
          match t.parentId with
          | none => s4
          | some p =>
            let s5a := modTask s4 p (fun tp =>
              { tp with sschedCache := some (tp.sschedCache.getD 0 - oldSched) })
            let q4 := scheduleSecondsGet f s5a c
            modTask q4.1 p (fun tp =>
              { tp with sschedCache := some (tp.sschedCache.getD 0 + q4.2) })
        modTask s5 i (fun t => { t with tstart := dtepochMax, tend := dtepochMin })
      else s1
    match s2.task c with
    | none => s2
    | some tc => expandDates f s2 (some i) tc.tstart tc.tend

/-- Event update_task_date_values, fired when a child is removed: the
range is recomputed from the remaining children, and with no child left the
start is set to the current time, which also pulls the end up. -/
def updateTaskDateValues (f : Nat) (s : State) (i removed : Nat) (now : Int) : State :=
  match s.task i with
  | none => s
  | some t =>
    let mm := t.childrenIds.foldl
      (fun (acc : Int × Int) c =>
        if c = removed then acc
        else
          match s.task c with
          | none => acc
          | some tc =>
            (if tc.tstart < acc.1 then tc.tstart else acc.1,
             if tc.tend > acc.2 then tc.tend else acc.2))
      (dtepochMax, dtepochMin)
    if mm.1 ≠ dtepochMax ∧ mm.2 ≠ dtepochMin then
      let s1 := taskStartSet f s i mm.1
      taskEndSet f s1 i mm.2
    else
      taskStartSet f s i now

/-- The assignment task.parent = newParent: _validate_parent runs first
with the collections still untouched (cycle checks, then the cache
arithmetic on the old and new parent through the cascading setters; the
writes silently do nothing when the target is still a leaf), then the
backref removes the task from the old collection, firing the date
maintenance handler, appends it to the new collection, firing the children
validator, and finally the foreign key is updated. -/
def setParent (f : Nat) (s : State) (cid : Nat) (newParent : Option Nat)
    (now : Int) : Except PyErr State :=
  match s.task cid with
  | none => Except.error PyErr.typeErr
  | some tc =>
    let cycleErr : Bool :=
      match newParent with
      | none => false
      | some p => reachableVia childrenOf s f cid p || reachableVia dependsOf s f cid p
    if cycleErr then Except.error PyErr.circular
    else
      let s1 :=
        match tc.parentId with
        | none => s
        | some oldP =>
          let qa := scheduleSecondsGet f s oldP
          let qb := scheduleSecondsGet f qa.1 cid
          let s1a := scheduleSecondsSet f qb.1 oldP (qa.2 - qb.2)
          let qc := totalLoggedGet f s1a oldP
          let qd := totalLoggedGet f qc.1 cid
          totalLoggedSet f qd.1 oldP (qc.2 - qd.2)
      let s2 :=
        match newParent with
        | none => s1
        | some np =>
          if isLeaf s1 np then
            let qa := scheduleSecondsGet f s1 cid
            let s2a := scheduleSecondsSet f qa.1 np qa.2
            let qb := totalLoggedGet f s2a cid
            totalLoggedSet f qb.1 np qb.2
          else
            let qa := scheduleSecondsGet f s1 np
            let qb := scheduleSecondsGet f qa.1 cid
            let s2a := scheduleSecondsSet f qb.1 np (qa.2 + qb.2)
            let qc := totalLoggedGet f s2a np
            let qd := totalLoggedGet f qc.1 cid
            totalLoggedSet f qd.1 np (qc.2 + qd.2)
      let s3 :=
        match tc.parentId with
        | none => s2
        | some oldP =>
          let s3a := modTask s2 oldP
            (fun t => { t with childrenIds := t.childrenIds.filter (fun x => x ≠ cid) })
          updateTaskDateValues f s3a oldP cid now
      let s4 :=
        match newParent with
        | none => s3
        | some np =>
          let s4a := validateChildren f s3 np cid
          modTask s4a np (fun t => { t with childrenIds := t.childrenIds ++ [cid] })
      Except.ok (modTask s4 cid (fun t => { t with parentId := newParent }))

/-- The modelled universe of Python values handed to the priority setter:
ints, bools, finite floats carrying their truncation, the infinite and nan
floats, strings carrying their parse, None, and any other object. -/
inductive PyVal : Type
  | pint : Int → PyVal
  | pbool : Bool → PyVal
  | pfloat : Int → PyVal
  | pfloatInf : PyVal
  | pfloatNan : PyVal
  | pstr : Option Int → PyVal
  | pnone : PyVal
  | pother : PyVal
deriving DecidableEq, Repr

/-- The configured default task priority of the source docs. -/
def defaults_task_priority : Int := 500

/-- The Python int() conversion on the modelled value universe: ints,
bools and finite floats convert; an infinite float raises OverflowError;
nan and unparsable strings raise ValueError; None and other objects raise
TypeError. -/
def intConv : PyVal → Except PyErr Int
  | PyVal.pint n => Except.ok n
  | PyVal.pbool b => Except.ok (if b then 1 else 0)
  | PyVal.pfloat q => Except.ok q
  | PyVal.pfloatInf => Except.error PyErr.overflowErr
  | PyVal.pfloatNan => Except.error PyErr.valueErr
  | PyVal.pstr (some n) => Except.ok n
  | PyVal.pstr none => Except.error PyErr.valueErr
  | PyVal.pnone => Except.error PyErr.typeErr
  | PyVal.pother => Except.error PyErr.typeErr

/-- Task._validate_priority: try int(), swallowing only ValueError and
TypeError; a value that is still not an int afterwards is replaced by the
default priority; the result is clamped into 0..1000. -/
def validatePriority (v : PyVal) : Except PyErr Int :=
  let conv : Except PyErr PyVal :=
    match intConv v with
    | Except.ok n => Except.ok (PyVal.pint n)
    | Except.error PyErr.valueErr => Except.ok v
    | Except.error PyErr.typeErr => Except.ok v
    | Except.error e => Except.error e
  match conv with
  | Except.error e => Except.error e
  | Except.ok w =>
    let n : Int :=
      match w with
      | PyVal.pint n => n
      | PyVal.pbool b => if b then 1 else 0
      | _ => defaults_task_priority
    Except.ok (if n < 0 then 0 else if n > 1000 then 1000 else n)

/-!
Concrete arenas used to evaluate the operations at specific inputs.
-/

/-- Sum of the total_logged_seconds getter values over the direct children
of a task, the quantity a container cache is specified to equal. -/
def sumChildrenLogged (f : Nat) (s : State) (i : Nat) : Int :=
  (childrenOf s i).foldl (fun a c => a + (totalLoggedGet f s c).2) 0

/-- Sum of the schedule_seconds getter values over the direct children. -/
def sumChildrenSched (f : Nat) (s : State) (i : Nat) : Int :=
  (childrenOf s i).foldl (fun a c => a + (scheduleSecondsGet f s c).2) 0

/-- Arena for the C1 failing input: grandparent 0 is a container over task
1; task 1 is a leaf with one time log of 3600 seconds; task 2 is a fresh
root leaf with no logs.  The caches of task 0 are consistent before the
operation. -/
def stateC1 : State :=
  { task := fun i =>
      if i = 0 then
        some { parentId := none, childrenIds := [1], dependsIds := [], resourcesIds := [],
               timeLogIds := [], schedule_timing := 1, schedule_unit := SUnit.uh,
               schedule_model := SModel.effort, schedule_constraint := 0,
               sschedCache := some 7200, stloggedCache := some 3600,
               tstart := 0, tend := 86400, priority := 500 }
      else if i = 1 then
        some { parentId := some 0, childrenIds := [], dependsIds := [], resourcesIds := [5],
               timeLogIds := [0], schedule_timing := 2, schedule_unit := SUnit.uh,
               schedule_model := SModel.effort, schedule_constraint := 0,
               sschedCache := none, stloggedCache := none,
               tstart := 0, tend := 7200, priority := 500 }
      else if i = 2 then
        some { parentId := none, childrenIds := [], dependsIds := [], resourcesIds := [6],
               timeLogIds := [], schedule_timing := 1, schedule_unit := SUnit.uh,
               schedule_model := SModel.effort, schedule_constraint := 0,
               sschedCache := none, stloggedCache := none,
               tstart := 0, tend := 3600, priority := 500 }
      else none,
    tlog := fun i =>
      if i = 0 then some { taskId := 1, resourceId := 5, lstart := 0, lend := 3600 }
      else none,
    logIds := [0] }

/-- The state after attaching task 2 as the first child of task 1. -/
def afterC1 : State :=
  match setParent 20 stateC1 2 (some 1) 50 with
  | Except.ok s => s
  | Except.error _ => stateC1

/-- C1: for every container task the cached schedule_seconds and the cached
total_logged_seconds equal the sums over the direct children after any
sequence of child and time-log operations.  This fails on the code: making
leaf task 1 (which carries 3600 logged seconds) a container by giving it a
fresh child shifts the schedule contribution inside the grandparent cache
but never the logged contribution, so the grandparent keeps the stale
cached 3600 while its only child now reports 0, and the non-missing cache
is not recomputed on read.  The schedule cache stays consistent on the same
input, isolating the asymmetry. -/
theorem C1_container_cache_eval :
    isContainer afterC1 0 = true ∧
    loggedCacheOf afterC1 0 = some 3600 ∧
    (totalLoggedGet 20 afterC1 0).2 = 3600 ∧
    sumChildrenLogged 20 afterC1 0 = 0 ∧
    schedCacheOf afterC1 0 = some 3600 ∧
    sumChildrenSched 20 afterC1 0 = 3600 := by
  decide

/-- Arena for the C3 failing input: one existing log of resource 7 over the
interval 2 to 3, strictly inside the candidate interval 0 to 10. -/
def stateC3 : State :=
  { task := fun i =>
      if i = 0 then
        some { parentId := none, childrenIds := [], dependsIds := [], resourcesIds := [7],
               timeLogIds := [0], schedule_timing := 100, schedule_unit := SUnit.uh,
               schedule_model := SModel.effort, schedule_constraint := 0,
               sschedCache := none, stloggedCache := none,
               tstart := 0, tend := 360000, priority := 500 }
      else none,
    tlog := fun i =>
      if i = 0 then some { taskId := 0, resourceId := 7, lstart := 2, lend := 3 }
      else none,
    logIds := [0] }

/-- C3: the resource validator is specified to raise exactly when another
log of the resource shares the start, shares the end, or has a boundary of
one interval strictly inside the open interval of the other.  This fails on
the code for the containment direction: the existing log from 2 to 3 lies
strictly inside the candidate interval from 0 to 10, so both of its
boundaries sit strictly inside the open candidate interval, yet the scan
only tests the boundaries of the candidate against the existing open
intervals and accepts the creation. -/
theorem C3_overbooking_containment_eval :
    ((2 : Int) < 3 ∧ (0 : Int) < 2 ∧ (3 : Int) < 10) ∧
    overbookConflict stateC3 7 none 0 10 = none ∧
    (createTimeLog 20 stateC3 1 0 7 0 10).isOk = true := by
  decide

/-- Arena for the C4 counterexample: one existing log of resource 7 from 0
to 10; the candidate from 10 to 20 touches its end. -/
def stateC4 : State :=
  { task := fun i =>
      if i = 0 then
        some { parentId := none, childrenIds := [], dependsIds := [], resourcesIds := [7],
               timeLogIds := [0], schedule_timing := 100, schedule_unit := SUnit.uh,
               schedule_model := SModel.effort, schedule_constraint := 0,
               sschedCache := none, stloggedCache := none,
               tstart := 0, tend := 360000, priority := 500 }
      else none,
    tlog := fun i =>
      if i = 0 then some { taskId := 0, resourceId := 7, lstart := 0, lend := 10 }
      else none,
    logIds := [0] }

/-- C4 counterexample: the claim says a new log whose start equals the end
of an existing log of the same resource is rejected with OverBookedError;
the code accepts it, and the new log is committed. -/
theorem C4_touching_accepted_counterexample :
    (∃ l, stateC4.tlog 0 = some l ∧ l.resourceId = 7 ∧ l.lend = 10) ∧
    (createTimeLog 20 stateC4 1 0 7 10 20).isOk = true := by
  refine ⟨⟨{ taskId := 0, resourceId := 7, lstart := 0, lend := 10 }, by decide⟩, by decide⟩

/-- C4 amended: touching endpoints do not count as overlap.  Whenever every
existing log of the resource is interval-disjoint from the candidate, with
touching endpoints allowed, and no boundary coincides exactly, the
overbooking scan accepts and the creation succeeds. -/
theorem C4_touching_allowed (f : Nat) (s : State) (newId tid rid : Nat)
    (st en : Int) (t : TaskData)
    (htask : s.task tid = some t)
    (hd : st ≤ en)
    (hlogs : ∀ lid, lid ∈ resourceLogIds s rid → ∀ l, s.tlog lid = some l →
      (l.lend ≤ st ∨ en ≤ l.lstart) ∧ l.lstart ≠ st ∧ l.lend ≠ en) :
    overbookConflict s rid none st en = none ∧
    (createTimeLog f s newId tid rid st en).isOk = true := by
  have hscan : overbookConflict s rid none st en = none := by
    apply List.find?_eq_none.2
    intro lid hmem
    cases hl : s.tlog lid with
    | none => simp [hl]
    | some l =>
      have h := hlogs lid hmem l hl
      simp only [hl, Bool.and_eq_true, decide_eq_true_eq]
      intro hc
      rcases hc.2 with h1 | h2 | h3 | h4
      · exact h.2.1 h1
      · exact h.2.2 h2
      · rcases h.1 with hle | hle <;> omega
      · rcases h.1 with hle | hle <;> omega
  have hva : validateDates (some st) (some en) none = (st, en, en - st) := by
    simp [validateDates, Int.not_lt.2 hd]
  refine ⟨hscan, ?_⟩
  unfold createTimeLog
  rw [hva]
  simp only [hscan, htask]
  cases t.parentId <;> simp [Except.isOk, Except.toBool]

/-- C4 witness: resource 7 has a log from 0 to 10 and books the adjacent
interval from 10 to 20 without an error. -/
theorem C4_touching_allowed_witness :
    overbookConflict stateC4 7 none 10 20 = none ∧
    (createTimeLog 20 stateC4 1 0 7 10 20).isOk = true := by
  refine C4_touching_allowed 20 stateC4 1 0 7 10 20
    { parentId := none, childrenIds := [], dependsIds := [], resourcesIds := [7],
      timeLogIds := [0], schedule_timing := 100, schedule_unit := SUnit.uh,
      schedule_model := SModel.effort, schedule_constraint := 0,
      sschedCache := none, stloggedCache := none,
      tstart := 0, tend := 360000, priority := 500 }
    (by decide) (by decide) ?_
  intro lid hmem l hl
  have : lid = 0 := by
    simpa [stateC4, resourceLogIds] using hmem
  subst this
  have : l = { taskId := 0, resourceId := 7, lstart := 0, lend := 10 } := by
    simpa [stateC4] using hl.symm
  subst this
  refine ⟨Or.inl (by decide), by decide, by decide⟩

/-- Arena for C7: task 0 is the new dependency D; task 1 is the parent P of
task 2 and already depends directly on D. -/
def stateC7 : State :=
  { task := fun i =>
      if i = 0 then
        some { parentId := none, childrenIds := [], dependsIds := [], resourcesIds := [],
               timeLogIds := [], schedule_timing := 1, schedule_unit := SUnit.uh,
               schedule_model := SModel.effort, schedule_constraint := 0,
               sschedCache := none, stloggedCache := none,
               tstart := 0, tend := 3600, priority := 500 }
      else if i = 1 then
        some { parentId := none, childrenIds := [2], dependsIds := [0], resourcesIds := [],
               timeLogIds := [], schedule_timing := 1, schedule_unit := SUnit.uh,
               schedule_model := SModel.effort, schedule_constraint := 0,
               sschedCache := some 3600, stloggedCache := some 0,
               tstart := 0, tend := 3600, priority := 500 }
      else if i = 2 then
        some { parentId := some 1, childrenIds := [], dependsIds := [], resourcesIds := [8],
               timeLogIds := [], schedule_timing := 1, schedule_unit := SUnit.uh,
               schedule_model := SModel.effort, schedule_constraint := 0,
               sschedCache := none, stloggedCache := none,
               tstart := 0, tend := 3600, priority := 500 }
      else none,
    tlog := fun _ => none,
    logIds := [] }

/-- C7 counterexample: the claim says adding dependency D to task T is
rejected when an ancestor of T already depends directly on D.  Here the
parent of task 2 depends directly on task 0, yet adding task 0 to the
depends of task 2 succeeds and the dependency is committed: the code walks
the ancestors testing the converse relation, whether the new dependency
depends on an ancestor. -/
theorem C7_ancestor_depends_counterexample :
    ancestorIds 30 stateC7 2 = [1] ∧
    dependsOf stateC7 1 = [0] ∧
    (addDepends 30 stateC7 2 0).toOption.map (fun s => dependsOf s 2) = some [0] := by
  refine ⟨by decide, by decide, by decide⟩

/-- Arena for the C7 amended direction: the dependency D, task 0, depends
directly on task 1, the parent of task 2. -/
def stateC7b : State :=
  { task := fun i =>
      if i = 0 then
        some { parentId := none, childrenIds := [], dependsIds := [1], resourcesIds := [],
               timeLogIds := [], schedule_timing := 1, schedule_unit := SUnit.uh,
               schedule_model := SModel.effort, schedule_constraint := 0,
               sschedCache := none, stloggedCache := none,
               tstart := 0, tend := 3600, priority := 500 }
      else if i = 1 then
        some { parentId := none, childrenIds := [2], dependsIds := [], resourcesIds := [],
               timeLogIds := [], schedule_timing := 1, schedule_unit := SUnit.uh,
               schedule_model := SModel.effort, schedule_constraint := 0,
               sschedCache := some 3600, stloggedCache := some 0,
               tstart := 0, tend := 3600, priority := 500 }
      else if i = 2 then
        some { parentId := some 1, childrenIds := [], dependsIds := [], resourcesIds := [8],
               timeLogIds := [], schedule_timing := 1, schedule_unit := SUnit.uh,
               schedule_model := SModel.effort, schedule_constraint := 0,
               sschedCache := none, stloggedCache := none,
               tstart := 0, tend := 3600, priority := 500 }
      else none,
    tlog := fun _ => none,
    logIds := [] }

/-- C7 amended: adding dependency D to task T walks the ancestor chain of T
and rejects with a CircularDependencyError when D depends directly on some
ancestor of T; the rejection happens before the collection is extended, so
the depends set of T is unchanged (expressed here by the operation
returning an error instead of a new state). -/
theorem C7_depends_on_ancestor_rejected (f : Nat) (s : State) (tid did p : Nat)
    (t d : TaskData)
    (ht : s.task tid = some t) (hd : s.task did = some d)
    (hp : p ∈ ancestorIds f s tid)
    (hdep : p ∈ dependsOf s did) :
    addDepends f s tid did = Except.error PyErr.circular := by
  have hany : ((ancestorIds f s tid).any (fun q => decide (q ∈ dependsOf s did))) = true :=
    List.any_eq_true.2 ⟨p, hp, decide_eq_true hdep⟩
  unfold addDepends
  rw [ht, hd]
  dsimp only
  split_ifs with h1 h2
  · rfl
  · rfl
  · rfl

/-- C7 witness: in the concrete arena the parent of task 2 is a direct
dependency of task 0, and adding task 0 to the depends of task 2 errors. -/
theorem C7_depends_on_ancestor_rejected_witness :
    addDepends 30 stateC7b 2 0 = Except.error PyErr.circular := by
  refine C7_depends_on_ancestor_rejected 30 stateC7b 2 0 1
    { parentId := some 1, childrenIds := [], dependsIds := [], resourcesIds := [8],
      timeLogIds := [], schedule_timing := 1, schedule_unit := SUnit.uh,
      schedule_model := SModel.effort, schedule_constraint := 0,
      sschedCache := none, stloggedCache := none,
      tstart := 0, tend := 3600, priority := 500 }
    { parentId := none, childrenIds := [], dependsIds := [1], resourcesIds := [],
      timeLogIds := [], schedule_timing := 1, schedule_unit := SUnit.uh,
      schedule_model := SModel.effort, schedule_constraint := 0,
      sschedCache := none, stloggedCache := none,
      tstart := 0, tend := 3600, priority := 500 }
    (by decide) (by decide) (by decide) (by decide)

/-- C10 counterexample: the claim says setting the priority never raises;
converting an infinite float raises OverflowError, which the except clause
of the validator does not swallow. -/
theorem C10_priority_inf_counterexample :
    validatePriority PyVal.pfloatInf = Except.error PyErr.overflowErr := by
  rfl

/-- C10 amended: for every modelled value except the infinite float the
validator never raises and stores an int in 0..1000: int-convertible values
are clamped at 0 and at 1000, and values whose conversion fails with
ValueError or TypeError are silently replaced by the configured default
priority. -/
theorem C10_priority_total_clamped (v : PyVal) (h : v ≠ PyVal.pfloatInf) :
    (∀ n, intConv v = Except.ok n →
      validatePriority v = Except.ok (if n < 0 then 0 else if n > 1000 then 1000 else n)) ∧
    ((∃ e, intConv v = Except.error e) →
      validatePriority v = Except.ok defaults_task_priority) ∧
    (∃ p, validatePriority v = Except.ok p ∧ 0 ≤ p ∧ p ≤ 1000) := by
  have bounds : ∀ n : Int,
      0 ≤ (if n < 0 then (0 : Int) else if n > 1000 then 1000 else n) ∧
      (if n < 0 then (0 : Int) else if n > 1000 then 1000 else n) ≤ 1000 := by
    intro n
    constructor <;> split_ifs <;> omega
  cases v with
  | pint n =>
    refine ⟨?_, ?_, ?_⟩
    · intro m hm
      have hnm : n = m := by simpa [intConv] using hm
      subst hnm
      rfl
    · rintro ⟨e, he⟩
      simp [intConv] at he
    · exact ⟨_, rfl, (bounds n).1, (bounds n).2⟩
  | pbool b =>
    refine ⟨?_, ?_, ?_⟩
    · intro m hm
      cases b with
      | false =>
        have h0 : (0 : Int) = m := by simpa [intConv] using hm
        subst h0
        rfl
      | true =>
        have h1 : (1 : Int) = m := by simpa [intConv] using hm
        subst h1
        rfl
    · rintro ⟨e, he⟩
      cases b <;> simp [intConv] at he
    · cases b
      · exact ⟨0, rfl, by omega, by omega⟩
      · exact ⟨1, rfl, by omega, by omega⟩
  | pfloat q =>
    refine ⟨?_, ?_, ?_⟩
    · intro m hm
      have hnm : q = m := by simpa [intConv] using hm
      subst hnm
      rfl
    · rintro ⟨e, he⟩
      simp [intConv] at he
    · exact ⟨_, rfl, (bounds q).1, (bounds q).2⟩
  | pfloatInf => exact absurd rfl h
  | pfloatNan =>
    refine ⟨?_, fun _ => rfl, ⟨500, rfl, by omega, by omega⟩⟩
    intro m hm
    simp [intConv] at hm
  | pstr o =>
    cases o with
    | none =>
      refine ⟨?_, fun _ => rfl, ⟨500, rfl, by omega, by omega⟩⟩
      intro m hm
      simp [intConv] at hm
    | some n =>
      refine ⟨?_, ?_, ?_⟩
      · intro m hm
        have hnm : n = m := by simpa [intConv] using hm
        subst hnm
        rfl
      · rintro ⟨e, he⟩
        simp [intConv] at he
      · exact ⟨_, rfl, (bounds n).1, (bounds n).2⟩
  | pnone =>
    refine ⟨?_, fun _ => rfl, ⟨500, rfl, by omega, by omega⟩⟩
    intro m hm
    simp [intConv] at hm
  | pother =>
    refine ⟨?_, fun _ => rfl, ⟨500, rfl, by omega, by omega⟩⟩
    intro m hm
    simp [intConv] at hm

/-- C10 witness: the value 2000 is clamped to 1000. -/
theorem C10_priority_total_clamped_witness :
    validatePriority (PyVal.pint 2000) = Except.ok 1000 := by
  have h := (C10_priority_total_clamped (PyVal.pint 2000) (by decide)).1 2000 rfl
  simpa using h

/-!
Rewriting toolkit about the state primitives.
-/

theorem upTask_task_self (s : State) (i : Nat) (d : TaskData) :
    (upTask s i d).task i = some d := by
  simp [upTask]

theorem upTask_task_ne (s : State) (i : Nat) (d : TaskData) (j : Nat) (h : j ≠ i) :
    (upTask s i d).task j = s.task j := by
  simp [upTask, h]

theorem upTask_tlog (s : State) (i : Nat) (d : TaskData) :
    (upTask s i d).tlog = s.tlog := rfl

theorem upTask_logIds (s : State) (i : Nat) (d : TaskData) :
    (upTask s i d).logIds = s.logIds := rfl

theorem modTask_eq (s : State) (i : Nat) (g : TaskData → TaskData) (d : TaskData)
    (h : s.task i = some d) : modTask s i g = upTask s i (g d) := by
  simp [modTask, h]

theorem upLog_tlog_self (s : State) (i : Nat) (d : LogData) :
    (upLog s i d).tlog i = some d := by
  simp [upLog]

theorem upLog_tlog_ne (s : State) (i : Nat) (d : LogData) (j : Nat) (h : j ≠ i) :
    (upLog s i d).tlog j = s.tlog j := by
  simp [upLog, h]

theorem upLog_task (s : State) (i : Nat) (d : LogData) :
    (upLog s i d).task = s.task := rfl

/-!
Helper lemmas for the leaf getters, the reschedule shape and the
least-meaningful-unit conversion, used by the expansion claim.
-/

theorem scheduleSecondsGet_leaf (f : Nat) (s : State) (i : Nat) (t : TaskData)
    (ht : s.task i = some t) (hleaf : t.childrenIds = []) :
    scheduleSecondsGet (f + 1) s i =
      (s, to_seconds t.schedule_timing t.schedule_unit t.schedule_model) := by
  unfold scheduleSecondsGet
  rw [ht]
  simp [hleaf]

theorem totalLoggedGet_leaf (f : Nat) (s : State) (i : Nat) (t : TaskData)
    (ht : s.task i = some t) (hleaf : t.childrenIds = []) :
    totalLoggedGet (f + 1) s i = (s, leafLoggedSeconds s t) := by
  unfold totalLoggedGet
  rw [ht]
  simp [hleaf]

theorem reschedule_leaf_shape (s : State) (i : Nat) (t : TaskData) (ta : Nat) (u : SUnit)
    (ht : s.task i = some t) (hleaf : t.childrenIds = []) :
    ∃ a b, reschedule s i ta u =
      upTask s i { t with
                   tstart := a, tend := b,
                   sschedCache := some (to_seconds t.schedule_timing t.schedule_unit t.schedule_model) } := by
  have hl : isLeaf s i = true := by simp [isLeaf, isContainer, ht, hleaf]
  unfold reschedule
  rw [hl, ht]
  simp only [if_true]
  split_ifs <;> exact ⟨_, _, rfl⟩

theorem unitSeconds_pos (u : SUnit) : 0 < unitSeconds u := by
  cases u <;> decide

theorem to_seconds_nonneg (ta : Nat) (u : SUnit) (m : SModel) :
    0 ≤ to_seconds ta u m :=
  mul_nonneg (Int.ofNat_nonneg ta) (le_of_lt (unitSeconds_pos u))

theorem to_seconds_lmtu (x : Int) (hx : 0 ≤ x) (hdvd : (60 : Int) ∣ x) (m : SModel) :
    to_seconds (least_meaningful_time_unit x).1 (least_meaningful_time_unit x).2 m = x := by
  have hn : ((x.toNat : Int)) = x := Int.toNat_of_nonneg hx
  have hdn : 60 ∣ x.toNat := by
    have : (60 : Int) ∣ (x.toNat : Int) := hn ▸ hdvd
    exact_mod_cast this
  simp only [least_meaningful_time_unit]
  split_ifs with h1 h2 h3 h4 h5 <;>
    · simp only [to_seconds, unitSeconds]
      rw [← hn]
      norm_cast
      omega

/-- Fold congruence for the time-log summation: logs outside the touched id
contribute identically. -/
theorem logsFold_congr (g h : Nat → Option LogData) (ids : List Nat) (a : Int)
    (hg : ∀ lid ∈ ids, g lid = h lid) :
    ids.foldl (fun acc lid =>
      match g lid with
      | none => acc
      | some l => acc + logSeconds l) a =
    ids.foldl (fun acc lid =>
      match h lid with
      | none => acc
      | some l => acc + logSeconds l) a := by
  induction ids generalizing a with
  | nil => rfl
  | cons x xs ih =>
    have hx := hg x (List.mem_cons_self _ _)
    simp only [List.foldl_cons, hx]
    exact ih _ (fun lid hm => hg lid (List.mem_cons_of_mem _ hm))

/-- The amount of seconds that the expansion step converts back into a
timing and unit: current schedule seconds plus the part of the new log
duration that exceeds the remaining seconds. -/
def overageTarget (s : State) (t : TaskData) (d : Int) : Int :=
  to_seconds t.schedule_timing t.schedule_unit t.schedule_model + d -
    (to_seconds t.schedule_timing t.schedule_unit t.schedule_model - leafLoggedSeconds s t)

/-- C2: on TimeLog creation for a leaf task, when the log duration exceeds
the remaining seconds evaluated before the log is added, the task timing
and unit are regrown to the least meaningful unit representing
schedule_seconds plus duration minus remaining, and afterwards the
remaining seconds of the task are zero. -/
theorem C2_expansion_on_overage (f : Nat) (s : State) (newId tid rid : Nat)
    (st en : Int) (t : TaskData)
    (ht : s.task tid = some t)
    (hleaf : t.childrenIds = [])
    (hroot : t.parentId = none)
    (hfresh : newId ∉ t.timeLogIds)
    (hse : st ≤ en)
    (hover : to_seconds t.schedule_timing t.schedule_unit t.schedule_model
      - leafLoggedSeconds s t < en - st)
    (hdiv : (60 : Int) ∣ overageTarget s t (en - st))
    (hscan : overbookConflict s rid none st en = none) :
    ∃ s2, createTimeLog (f + 1) s newId tid rid st en = Except.ok s2 ∧
      (s2.task tid).map TaskData.schedule_timing =
        some (least_meaningful_time_unit (overageTarget s t (en - st))).1 ∧
      (s2.task tid).map TaskData.schedule_unit =
        some (least_meaningful_time_unit (overageTarget s t (en - st))).2 ∧
      (scheduleSecondsGet (f + 1) s2 tid).2 - (totalLoggedGet (f + 1) s2 tid).2 = 0 := by
  have hvd : validateDates (some st) (some en) none = (st, en, en - st) := by
    simp [validateDates, Int.not_lt.2 hse]
  set S := to_seconds t.schedule_timing t.schedule_unit t.schedule_model with hS
  set L := leafLoggedSeconds s t with hL
  set X := overageTarget s t (en - st) with hX
  set lm := least_meaningful_time_unit X with hlm
  -- the expansion branch of _expand_task_schedule_timing is taken
  have hexp : expandTaskScheduleTiming (f + 1) s tid (en - st) =
      scheduleUnitSet (f + 1) (scheduleTimingSet (f + 1) s tid lm.1) tid lm.2 := by
    unfold expandTaskScheduleTiming
    rw [scheduleSecondsGet_leaf f s tid t ht hleaf]
    dsimp only
    rw [totalLoggedGet_leaf f s tid t ht hleaf]
    dsimp only
    rw [if_pos hover]
    rw [scheduleSecondsGet_leaf f s tid t ht hleaf]
    rfl
  -- the timing assignment
  obtain ⟨a1, b1, hres1⟩ := reschedule_leaf_shape s tid t lm.1 t.schedule_unit ht hleaf
  set tA : TaskData := { t with
                         tstart := a1, tend := b1,
                         sschedCache := some S } with htA
  set t1 : TaskData := { tA with schedule_timing := lm.1 } with ht1
  have hT : scheduleTimingSet (f + 1) s tid lm.1 = upTask (upTask s tid tA) tid t1 := by
    unfold scheduleTimingSet
    rw [ht]
    dsimp only
    rw [hres1, hroot]
    rw [modTask_eq _ _ _ tA (upTask_task_self _ _ _)]
  -- the unit assignment, with or without the inner reschedule, ends in a
  -- single final record for the task
  have hfinal : ∃ (u : State) (tFin : TaskData),
      expandTaskScheduleTiming (f + 1) s tid (en - st) = upTask u tid tFin ∧
      tFin.schedule_timing = lm.1 ∧ tFin.schedule_unit = lm.2 ∧
      tFin.childrenIds = [] ∧ tFin.parentId = none ∧
      tFin.timeLogIds = t.timeLogIds ∧ tFin.schedule_model = t.schedule_model ∧
      u.tlog = s.tlog ∧ u.logIds = s.logIds := by
    rw [hexp, hT]
    have hsB : (upTask (upTask s tid tA) tid t1).task tid = some t1 :=
      upTask_task_self _ _ _
    unfold scheduleUnitSet
    rw [hsB]
    dsimp only
    rw [show t1.parentId = none from hroot]
    by_cases hz : t1.schedule_timing ≠ 0
    · rw [if_pos hz]
      obtain ⟨a2, b2, hres2⟩ := reschedule_leaf_shape _ tid t1 t1.schedule_timing lm.2 hsB hleaf
      rw [hres2]
      rw [modTask_eq _ _ _ _ (upTask_task_self _ _ _)]
      exact ⟨_, _, rfl, rfl, rfl, hleaf, hroot, rfl, rfl, rfl, rfl⟩
    · rw [if_neg hz]
      rw [modTask_eq _ _ _ _ hsB]
      exact ⟨_, _, rfl, rfl, rfl, hleaf, hroot, rfl, rfl, rfl, rfl⟩
  obtain ⟨u, tFin, hfe, hf1, hf2, hf3, hf4, hf5, hf6, hutlog, hulog⟩ := hfinal
  -- execute the creation
  set lg : LogData := { taskId := tid, resourceId := rid, lstart := st, lend := en } with hlg
  set s3 : State :=
    { upLog (upTask u tid tFin) newId lg with
      logIds := (upLog (upTask u tid tFin) newId lg).logIds ++ [newId] } with hs3
  have hs3task : s3.task tid = some tFin := upTask_task_self _ _ _
  set tLast : TaskData := { tFin with timeLogIds := tFin.timeLogIds ++ [newId] } with htLast
  have hrun : createTimeLog (f + 1) s newId tid rid st en =
      Except.ok (upTask s3 tid tLast) := by
    unfold createTimeLog
    rw [hvd]
    dsimp only
    rw [hscan, ht]
    dsimp only
    rw [hfe]
    rw [show t.parentId = none from hroot]
    rw [modTask_eq _ _ _ _ hs3task]
  refine ⟨upTask s3 tid tLast, hrun, ?_, ?_, ?_⟩
  · rw [upTask_task_self]
    exact congrArg some hf1
  · rw [upTask_task_self]
    exact congrArg some hf2
  · -- remaining seconds after the commit are zero
    have hXnn : 0 ≤ X := by
      have h0 : 0 ≤ S := to_seconds_nonneg _ _ _
      have hXe : X = S + (en - st) - (S - L) := by
        rw [hX, overageTarget, ← hS, ← hL]
      omega
    have htl : (upTask s3 tid tLast).task tid = some tLast := upTask_task_self _ _ _
    have hlc : tLast.childrenIds = [] := hf3
    rw [scheduleSecondsGet_leaf f _ tid tLast htl hlc]
    rw [totalLoggedGet_leaf f _ tid tLast htl hlc]
    dsimp only
    have hts : to_seconds tLast.schedule_timing tLast.schedule_unit tLast.schedule_model = X := by
      rw [show tLast.schedule_timing = lm.1 from hf1,
          show tLast.schedule_unit = lm.2 from hf2,
          show tLast.schedule_model = t.schedule_model from hf6]
      rw [hlm]
      exact to_seconds_lmtu X hXnn hdiv t.schedule_model
    have hsum : leafLoggedSeconds (upTask s3 tid tLast) tLast = L + (en - st) := by
      unfold leafLoggedSeconds
      rw [show tLast.timeLogIds = t.timeLogIds ++ [newId] by rw [htLast]; rw [hf5]]
      rw [List.foldl_append]
      have hfirst : t.timeLogIds.foldl
          (fun acc lid =>
            match (upTask s3 tid tLast).tlog lid with
            | none => acc
            | some l => acc + logSeconds l) 0 = L := by
        rw [hL]
        unfold leafLoggedSeconds
        apply logsFold_congr
        intro lid hmem
        have hne : lid ≠ newId := fun h => hfresh (h ▸ hmem)
        have e1 : (upTask s3 tid tLast).tlog lid = s3.tlog lid := rfl
        rw [e1]
        have e2 : s3.tlog lid = (upLog (upTask u tid tFin) newId lg).tlog lid := rfl
        rw [e2, upLog_tlog_ne _ _ _ _ hne]
        exact congrFun hutlog lid
      rw [hfirst]
      have e3 : (upTask s3 tid tLast).tlog newId = some lg := by
        have : s3.tlog newId = some lg := upLog_tlog_self _ _ _
        exact this
      simp only [List.foldl_cons, List.foldl_nil, e3]
      rfl
    rw [hsum, hts]
    have hXe : X = S + (en - st) - (S - L) := by
      rw [hX, overageTarget, ← hS, ← hL]
    omega

/-- Arena for the C2 scenario: a single root leaf task with schedule
timing 4 days and no time logs. -/
def stateC2 : State :=
  { task := fun i =>
      if i = 0 then
        some { parentId := none, childrenIds := [], dependsIds := [], resourcesIds := [7],
               timeLogIds := [], schedule_timing := 4, schedule_unit := SUnit.ud,
               schedule_model := SModel.effort, schedule_constraint := 0,
               sschedCache := none, stloggedCache := none,
               tstart := 0, tend := 345600, priority := 500 }
      else none,
    tlog := fun _ => none,
    logIds := [] }

/-- C2 witness, the scenario of the spec: a leaf task with timing 4 days
receives a 5 day time log; the timing expands to 5 days and the remaining
seconds become zero. -/
theorem C2_expansion_on_overage_witness :
    ∃ s2, createTimeLog 20 stateC2 1 0 7 0 432000 = Except.ok s2 ∧
      (s2.task 0).map TaskData.schedule_timing = some 5 ∧
      (s2.task 0).map TaskData.schedule_unit = some SUnit.ud ∧
      (scheduleSecondsGet 20 s2 0).2 - (totalLoggedGet 20 s2 0).2 = 0 := by
  obtain ⟨s2, h1, h2, h3, h4⟩ := C2_expansion_on_overage 19 stateC2 1 0 7 0 432000
    { parentId := none, childrenIds := [], dependsIds := [], resourcesIds := [7],
      timeLogIds := [], schedule_timing := 4, schedule_unit := SUnit.ud,
      schedule_model := SModel.effort, schedule_constraint := 0,
      sschedCache := none, stloggedCache := none,
      tstart := 0, tend := 345600, priority := 500 }
    rfl rfl rfl (by decide) (by decide) (by decide) (by decide) (by decide)
  refine ⟨s2, h1, ?_, ?_, h4⟩
  · rw [h2]
    decide
  · rw [h3]
    decide

/-!
Ancestor chains and the cascading cache setters.
-/

/-- The strict ancestor chain of a task: the list holds the ancestors of
the first index, nearest parent first, and ends at a root. -/
inductive AncChain (s : State) : Nat → List Nat → Prop
  | root {i : Nat} (t : TaskData) :
      s.task i = some t → t.parentId = none → AncChain s i []
  | step {i p : Nat} (t : TaskData) {l : List Nat} :
      s.task i = some t → t.parentId = some p → AncChain s p l → AncChain s i (p :: l)

/-- An ancestor chain only reads the records of its own nodes, so it is
stable under changes elsewhere. -/
theorem AncChain_stable {s s' : State} {i : Nat} {l : List Nat}
    (h : AncChain s i l) (hag : ∀ j, j = i ∨ j ∈ l → s'.task j = s.task j) :
    AncChain s' i l := by
  induction h with
  | @root i t ht hp =>
    refine AncChain.root t ?_ hp
    rw [hag i (Or.inl rfl), ht]
  | @step i p t l ht hp hrec ih =>
    refine AncChain.step t (by rw [hag i (Or.inl rfl), ht]) hp ?_
    refine ih (fun j hj => hag j (Or.inr ?_))
    rcases hj with rfl | h
    · exact List.mem_cons_self _ _
    · exact List.mem_cons_of_mem _ h

/-- Every node of an ancestor chain except the last has a parent; a root
found inside the chain must be the final element. -/
theorem AncChain_root_is_last {s : State} {i : Nat} {l : List Nat}
    (h : AncChain s i l) :
    ∀ j ∈ i :: l, ∀ tj, s.task j = some tj → tj.parentId = none →
      (i :: l).getLast? = some j := by
  induction h with
  | @root i t ht hp =>
    intro j hj tj htj hpj
    have : j = i := by simpa using hj
    subst this
    rfl
  | @step i p t l ht hp hrec ih =>
    intro j hj tj htj hpj
    rcases List.mem_cons.1 hj with rfl | hj2
    · rw [ht] at htj
      cases htj
      rw [hp] at hpj
      cases hpj
    · have hres := ih j hj2 tj htj hpj
      rw [List.getLast?_cons_cons]
      exact hres

/-- The schedule_seconds getter is a pure cache read on a container whose
cache is present and non-negative. -/
theorem scheduleSecondsGet_container_pure (f : Nat) (s : State) (i : Nat)
    (t : TaskData) (ht : s.task i = some t) (hc : t.childrenIds ≠ [])
    (w : Int) (hw : t.sschedCache = some w) (hw0 : 0 ≤ w) :
    scheduleSecondsGet (f + 1) s i = (s, w) := by
  unfold scheduleSecondsGet
  rw [ht]
  have hemp : t.childrenIds.isEmpty = false := by
    cases h : t.childrenIds with
    | nil => exact absurd h hc
    | cons a l => rfl
  dsimp only
  rw [hemp]
  simp only [Bool.false_eq_true, if_false, hw]
  rw [if_neg (Int.not_lt.2 hw0)]

/-- The total_logged_seconds getter is a pure cache read on a container
whose cache is present. -/
theorem totalLoggedGet_container_pure (f : Nat) (s : State) (i : Nat)
    (t : TaskData) (ht : s.task i = some t) (hc : t.childrenIds ≠ [])
    (w : Int) (hw : t.stloggedCache = some w) :
    totalLoggedGet (f + 1) s i = (s, w) := by
  unfold totalLoggedGet
  rw [ht]
  have hemp : t.childrenIds.isEmpty = false := by
    cases h : t.childrenIds with
    | nil => exact absurd h hc
    | cons a l => rfl
  dsimp only
  rw [hemp]
  simp only [Bool.false_eq_true, if_false, hw]

/-- A container has a nonempty children list. -/
theorem container_children_ne {s : State} {i : Nat} {t : TaskData}
    (ht : s.task i = some t) (hc : isContainer s i = true) : t.childrenIds ≠ [] := by
  intro hnil
  unfold isContainer at hc
  rw [ht] at hc
  dsimp only at hc
  rw [hnil] at hc
  simp at hc

/-- Container status only depends on the own record. -/
theorem isContainer_congr {s s' : State} {i : Nat} (h : s'.task i = s.task i) :
    isContainer s' i = isContainer s i := by
  unfold isContainer
  rw [h]

/-- The logged cache read only depends on the own record. -/
theorem loggedCacheOf_congr {s s' : State} {i : Nat} (h : s'.task i = s.task i) :
    loggedCacheOf s' i = loggedCacheOf s i := by
  unfold loggedCacheOf
  rw [h]

/-- The schedule cache read only depends on the own record. -/
theorem schedCacheOf_congr {s s' : State} {i : Nat} (h : s'.task i = s.task i) :
    schedCacheOf s' i = schedCacheOf s i := by
  unfold schedCacheOf
  rw [h]

/-- Cascade description of the schedule_seconds setter along an ancestor
chain of containers with present non-negative caches: the target cache is
replaced by the value and every ancestor cache shifts by the difference of
the value against the old target cache. -/
theorem scheduleSecondsSet_cascade :
    ∀ (A : List Nat) (f : Nat) (s : State) (i : Nat) (v : Int),
      AncChain s i A →
      isContainer s i = true →
      (∀ j ∈ A, isContainer s j = true) →
      (∀ j ∈ A, ∃ w, schedCacheOf s j = some w ∧ 0 ≤ w) →
      (i :: A).Nodup →
      A.length + 1 ≤ f →
      ((∀ j, (scheduleSecondsSet f s i v).task j =
        (if j = i then (s.task j).map (fun t => { t with sschedCache := some v })
         else if j ∈ A then
           (s.task j).map (fun t =>
             { t with
               sschedCache := some (t.sschedCache.getD 0 + (v - (schedCacheOf s i).getD 0)) })
         else s.task j)) ∧
       (scheduleSecondsSet f s i v).tlog = s.tlog ∧
       (scheduleSecondsSet f s i v).logIds = s.logIds) := by
  intro A
  induction A with
  | nil =>
    intro f s i v hch hci hcA hwA hnd hf
    cases f with
    | zero => omega
    | succ f1 =>
      cases hch with
      | root t ht hp =>
        unfold scheduleSecondsSet
        rw [if_pos hci]
        rw [ht]
        dsimp only
        rw [hp]
        dsimp only
        refine ⟨?_, rfl, rfl⟩
        intro j
        by_cases hj : j = i
        · subst hj
          rw [upTask_task_self, ht]
          rw [if_pos rfl]
          simp only [Option.map_some']
          rw [hp]
        · rw [upTask_task_ne _ _ _ _ hj]
          simp [hj]
  | cons p rest ih =>
    intro f s i v hch hci hcA hwA hnd hf
    cases f with
    | zero => omega
    | succ f1 =>
      cases f1 with
      | zero =>
        exfalso
        simp only [List.length_cons] at hf
        omega
      | succ f2 =>
        cases hch with
        | step t ht hp hchp =>
        obtain ⟨wp, hwp, hwp0⟩ := hwA p (List.mem_cons_self _ _)
        obtain ⟨tp, htp, htpc⟩ : ∃ tp, s.task p = some tp ∧ tp.sschedCache = some wp := by
          cases htp : s.task p with
          | none =>
            rw [schedCacheOf, htp] at hwp
            cases hwp
          | some tp =>
            refine ⟨tp, rfl, ?_⟩
            rw [schedCacheOf, htp] at hwp
            exact hwp
        have hcp : isContainer s p = true := hcA p (List.mem_cons_self _ _)
        have hpc : tp.childrenIds ≠ [] := container_children_ne htp hcp
        have hget := scheduleSecondsGet_container_pure f2 s p tp htp hpc wp htpc hwp0
        have hndp : (p :: rest).Nodup := (List.nodup_cons.1 hnd).2
        have hip : i ≠ p := by
          have := (List.nodup_cons.1 hnd).1
          intro h
          exact this (h ▸ List.mem_cons_self _ _)
        have hirest : i ∉ rest := by
          have := (List.nodup_cons.1 hnd).1
          intro h
          exact this (List.mem_cons_of_mem _ h)
        have hprest : p ∉ rest := (List.nodup_cons.1 hndp).1
        have hlen : rest.length + 1 ≤ f2 + 1 := by
          simp only [List.length_cons] at hf
          omega
        have hih := ih (f2 + 1) s p (wp - t.sschedCache.getD 0 + v) hchp hcp
          (fun j hj => hcA j (List.mem_cons_of_mem _ hj))
          (fun j hj => hwA j (List.mem_cons_of_mem _ hj)) hndp hlen
        unfold scheduleSecondsSet
        rw [if_pos hci]
        rw [ht]
        dsimp only
        rw [hp]
        dsimp only
        rw [hget]
        dsimp only
        have hs2i : (scheduleSecondsSet (f2 + 1) s p (wp - t.sschedCache.getD 0 + v)).task i
            = some t := by
          rw [hih.1 i]
          rw [if_neg hip, if_neg hirest, ht]
        rw [modTask_eq _ _ _ _ hs2i]
        have hcur : (schedCacheOf s i).getD 0 = t.sschedCache.getD 0 := by
          rw [schedCacheOf, ht]
          rfl
        refine ⟨?_, ?_, ?_⟩
        · intro j
          by_cases hj : j = i
          · subst hj
            rw [upTask_task_self, ht]
            rw [if_pos rfl]
            simp only [Option.map_some']
          · rw [upTask_task_ne _ _ _ _ hj, hih.1 j]
            by_cases hjp : j = p
            · subst hjp
              rw [if_pos rfl]
              rw [if_neg hj, if_pos (List.mem_cons_self _ _)]
              rw [htp]
              have harith : wp - t.sschedCache.getD 0 + v =
                  tp.sschedCache.getD 0 + (v - (schedCacheOf s i).getD 0) := by
                rw [htpc, hcur]
                simp only [Option.getD_some]
                ring
              simp only [Option.map_some']
              rw [harith]
            · rw [if_neg hjp]
              by_cases hjr : j ∈ rest
              · rw [if_pos hjr, if_neg hj, if_pos (List.mem_cons_of_mem _ hjr)]
                obtain ⟨wj, hwj, _⟩ := hwA j (List.mem_cons_of_mem _ hjr)
                obtain ⟨tj, htj, htjc⟩ : ∃ tj, s.task j = some tj ∧ tj.sschedCache = some wj := by
                  cases htj : s.task j with
                  | none =>
                    rw [schedCacheOf, htj] at hwj
                    cases hwj
                  | some tj =>
                    refine ⟨tj, rfl, ?_⟩
                    rw [schedCacheOf, htj] at hwj
                    exact hwj
                rw [htj]
                have harith : tj.sschedCache.getD 0 +
                    ((wp - t.sschedCache.getD 0 + v) - (schedCacheOf s p).getD 0) =
                    tj.sschedCache.getD 0 + (v - (schedCacheOf s i).getD 0) := by
                  rw [hwp, hcur]
                  simp only [Option.getD_some]
                  ring
                simp only [Option.map_some']
                rw [harith]
              · rw [if_neg hjr, if_neg hj,
                    if_neg (by simp [hjp, hjr] : ¬ j ∈ p :: rest)]
        · rw [upTask_tlog, hih.2.1]
        · rw [upTask_logIds, hih.2.2]

/-- Cascade description of the total_logged_seconds setter along an
ancestor chain of containers with present caches: the target cache is
replaced by the value (the own write happens before the parent update) and
every ancestor cache shifts by the difference of the value against the old
target cache. -/
theorem totalLoggedSet_cascade :
    ∀ (A : List Nat) (f : Nat) (s : State) (i : Nat) (v : Int),
      AncChain s i A →
      isContainer s i = true →
      (∀ j ∈ A, isContainer s j = true) →
      (∀ j ∈ A, ∃ w, loggedCacheOf s j = some w) →
      (i :: A).Nodup →
      A.length + 1 ≤ f →
      ((∀ j, (totalLoggedSet f s i v).task j =
        (if j = i then (s.task j).map (fun t => { t with stloggedCache := some v })
         else if j ∈ A then
           (s.task j).map (fun t =>
             { t with
               stloggedCache := some (t.stloggedCache.getD 0 + (v - (loggedCacheOf s i).getD 0)) })
         else s.task j)) ∧
       (totalLoggedSet f s i v).tlog = s.tlog ∧
       (totalLoggedSet f s i v).logIds = s.logIds) := by
  intro A
  induction A with
  | nil =>
    intro f s i v hch hci hcA hwA hnd hf
    cases f with
    | zero => omega
    | succ f1 =>
      cases hch with
      | root t ht hp =>
        unfold totalLoggedSet
        rw [if_pos hci]
        rw [ht]
        dsimp only
        rw [hp]
        dsimp only
        refine ⟨?_, rfl, rfl⟩
        intro j
        by_cases hj : j = i
        · subst hj
          rw [upTask_task_self, ht]
          rw [if_pos rfl]
          simp only [Option.map_some']
          rw [hp]
        · rw [upTask_task_ne _ _ _ _ hj]
          simp [hj]
  | cons p rest ih =>
    intro f s i v hch hci hcA hwA hnd hf
    cases f with
    | zero => omega
    | succ f1 =>
      cases f1 with
      | zero =>
        exfalso
        simp only [List.length_cons] at hf
        omega
      | succ f2 =>
        cases hch with
        | step t ht hp hchp =>
        obtain ⟨wp, hwp⟩ := hwA p (List.mem_cons_self _ _)
        obtain ⟨tp, htp, htpc⟩ : ∃ tp, s.task p = some tp ∧ tp.stloggedCache = some wp := by
          cases htp : s.task p with
          | none =>
            rw [loggedCacheOf, htp] at hwp
            cases hwp
          | some tp =>
            refine ⟨tp, rfl, ?_⟩
            rw [loggedCacheOf, htp] at hwp
            exact hwp
        have hcp : isContainer s p = true := hcA p (List.mem_cons_self _ _)
        have hpc : tp.childrenIds ≠ [] := container_children_ne htp hcp
        have hndp : (p :: rest).Nodup := (List.nodup_cons.1 hnd).2
        have hip : i ≠ p := by
          have := (List.nodup_cons.1 hnd).1
          intro h
          exact this (h ▸ List.mem_cons_self _ _)
        have hirest : i ∉ rest := by
          have := (List.nodup_cons.1 hnd).1
          intro h
          exact this (List.mem_cons_of_mem _ h)
        have hprest : p ∉ rest := (List.nodup_cons.1 hndp).1
        have hlen : rest.length + 1 ≤ f2 + 1 := by
          simp only [List.length_cons] at hf
          omega
        unfold totalLoggedSet
        rw [if_pos hci]
        rw [ht]
        dsimp only
        rw [hp]
        dsimp only
        -- the own cache is written first (the parent field is already
        -- rewritten to its known value in the goal)
        set t1 : TaskData := { t with parentId := some p, stloggedCache := some v } with ht1
        set s1 : State := upTask s i t1 with hs1
        have hs1_ne : ∀ j, j ≠ i → s1.task j = s.task j := by
          intro j hj
          rw [hs1, upTask_task_ne _ _ _ _ hj]
        have hs1p : s1.task p = some tp := by
          rw [hs1_ne p (fun h => hip h.symm), htp]
        have hget := totalLoggedGet_container_pure f2 s1 p tp hs1p hpc wp htpc
        rw [hget]
        dsimp only
        have hch1 : AncChain s1 p rest := by
          refine AncChain_stable hchp (fun j hj => ?_)
          refine hs1_ne j (fun h => ?_)
          rcases hj with rfl | hjr
          · exact hip h.symm
          · exact hirest (h ▸ hjr)
        have hih := ih (f2 + 1) s1 p (wp - t.stloggedCache.getD 0 + v) hch1
          (by
            rw [isContainer_congr (hs1_ne p (fun h => hip h.symm))]
            exact hcp)
          (by
            intro j hj
            rw [isContainer_congr (hs1_ne j (fun h => hirest (h ▸ hj)))]
            exact hcA j (List.mem_cons_of_mem _ hj))
          (by
            intro j hj
            rw [loggedCacheOf_congr (hs1_ne j (fun h => hirest (h ▸ hj)))]
            exact hwA j (List.mem_cons_of_mem _ hj))
          hndp hlen
        have hold : (loggedCacheOf s i).getD 0 = t.stloggedCache.getD 0 := by
          rw [loggedCacheOf, ht]
          rfl
        have hwp1 : loggedCacheOf s1 p = some wp := by
          rw [loggedCacheOf, hs1p]
          exact htpc
        refine ⟨?_, ?_, ?_⟩
        · intro j
          rw [hih.1 j]
          by_cases hj : j = i
          · subst hj
            rw [if_neg hip, if_neg hirest]
            rw [hs1, upTask_task_self, ht]
            rw [if_pos rfl]
            simp only [Option.map_some']
            rw [hp]
          · by_cases hjp : j = p
            · subst hjp
              rw [if_pos rfl, if_neg hj, if_pos (List.mem_cons_self _ _)]
              rw [hs1_ne _ (fun h => hip h.symm), htp]
              have harith : wp - t.stloggedCache.getD 0 + v =
                  tp.stloggedCache.getD 0 + (v - (loggedCacheOf s i).getD 0) := by
                rw [htpc, hold]
                simp only [Option.getD_some]
                ring
              simp only [Option.map_some']
              rw [harith]
            · rw [if_neg hjp]
              by_cases hjr : j ∈ rest
              · rw [if_pos hjr, if_neg hj, if_pos (List.mem_cons_of_mem _ hjr)]
                rw [hs1_ne j hj]
                obtain ⟨wj, hwj⟩ := hwA j (List.mem_cons_of_mem _ hjr)
                obtain ⟨tj, htj, htjc⟩ : ∃ tj, s.task j = some tj ∧ tj.stloggedCache = some wj := by
                  cases htj : s.task j with
                  | none =>
                    rw [loggedCacheOf, htj] at hwj
                    cases hwj
                  | some tj =>
                    refine ⟨tj, rfl, ?_⟩
                    rw [loggedCacheOf, htj] at hwj
                    exact hwj
                rw [htj]
                have harith : tj.stloggedCache.getD 0 +
                    ((wp - t.stloggedCache.getD 0 + v) - (loggedCacheOf s1 p).getD 0) =
                    tj.stloggedCache.getD 0 + (v - (loggedCacheOf s i).getD 0) := by
                  rw [hwp1, hold]
                  simp only [Option.getD_some]
                  ring
                simp only [Option.map_some']
                rw [harith]
              · rw [if_neg hjr, if_neg hj,
                    if_neg (by simp [hjp, hjr] : ¬ j ∈ p :: rest)]
                exact hs1_ne j hj
        · rw [hih.2.1]
          rfl
        · rw [hih.2.2]
          rfl

/-- An ancestor chain survives any state change that keeps every chain
node present with the same parent reference. -/
theorem AncChain_parent_stable {s s' : State} {i : Nat} {l : List Nat}
    (h : AncChain s i l)
    (hag : ∀ j, j = i ∨ j ∈ l → ∀ tj, s.task j = some tj →
      ∃ tj', s'.task j = some tj' ∧ tj'.parentId = tj.parentId) :
    AncChain s' i l := by
  induction h with
  | @root i t ht hp =>
    obtain ⟨t', ht', hp'⟩ := hag i (Or.inl rfl) t ht
    exact AncChain.root t' ht' (hp' ▸ hp)
  | @step i p t l ht hp hrec ih =>
    obtain ⟨t', ht', hp'⟩ := hag i (Or.inl rfl) t ht
    refine AncChain.step t' ht' (hp' ▸ hp) ?_
    refine ih (fun j hj tj htj => hag j (Or.inr ?_) tj htj)
    rcases hj with rfl | hjr
    · exact List.mem_cons_self _ _
    · exact List.mem_cons_of_mem _ hjr

/-- C5 amended: mutating the start of an existing TimeLog does not re-run
the overbooking check (the operation is total and always commits); it
propagates exactly the duration difference, new duration minus old
duration, through the whole ancestor chain of the owning task, and touches
no other task. -/
theorem C5_start_mutation_propagates_delta (f : Nat) (s : State) (lid : Nat)
    (v : Int) (l : LogData) (t : TaskData) (p : Nat) (A : List Nat)
    (hl : s.tlog lid = some l)
    (ht : s.task l.taskId = some t)
    (hpar : t.parentId = some p)
    (hch : AncChain s p A)
    (hcp : isContainer s p = true)
    (hcA : ∀ j ∈ A, isContainer s j = true)
    (hwp : ∃ w, loggedCacheOf s p = some w)
    (hwA : ∀ j ∈ A, ∃ w, loggedCacheOf s j = some w)
    (hnd : (p :: A).Nodup)
    (hTnotin : l.taskId ∉ p :: A)
    (hf : A.length + 1 ≤ f)
    (hv : v ≤ l.lend) :
    (timeLogSetStart f s lid v).tlog lid = some { l with lstart := v } ∧
    (∀ w, loggedCacheOf s p = some w →
      loggedCacheOf (timeLogSetStart f s lid v) p =
        some (w + ((l.lend - v) - (l.lend - l.lstart)))) ∧
    (∀ j ∈ A, ∀ w, loggedCacheOf s j = some w →
      loggedCacheOf (timeLogSetStart f s lid v) j =
        some (w + ((l.lend - v) - (l.lend - l.lstart)))) ∧
    (∀ j, j ∉ p :: A → (timeLogSetStart f s lid v).task j = s.task j) := by
  cases f with
  | zero => omega
  | succ fg =>
  obtain ⟨wp, hwpv⟩ := hwp
  obtain ⟨tp, htp, htpc⟩ : ∃ tp, s.task p = some tp ∧ tp.stloggedCache = some wp := by
    cases htp : s.task p with
    | none =>
      rw [loggedCacheOf, htp] at hwpv
      cases hwpv
    | some tp =>
      refine ⟨tp, rfl, ?_⟩
      rw [loggedCacheOf, htp] at hwpv
      exact hwpv
  have hpc : tp.childrenIds ≠ [] := container_children_ne htp hcp
  have hvd : validateDates (some v) (some l.lend) (some (l.lend - l.lstart)) =
      (v, l.lend, l.lend - v) := by
    simp [validateDates, Int.not_lt.2 hv]
  set l1 : LogData := { l with lstart := v } with hl1
  set s1 : State := upLog s lid l1 with hs1
  have hs1task : s1.task = s.task := rfl
  have hs1l : s1.tlog lid = some l1 := upLog_tlog_self _ _ _
  set oldDur : Int := l.lend - l.lstart with holdDur
  set newDur : Int := l.lend - v with hnewDur
  -- the first event propagates the new start through the chain
  have hgp : totalLoggedGet (fg + 1) s1 p = (s1, wp) :=
    totalLoggedGet_container_pure fg s1 p tp (by rw [hs1task, htp]) hpc wp htpc
  have hch1 : AncChain s1 p A :=
    AncChain_stable hch (fun j _ => by rw [hs1task])
  have hcasc1 := totalLoggedSet_cascade A (fg + 1) s1 p (wp - oldDur + newDur) hch1
    (by rw [isContainer_congr (congrFun hs1task p)]; exact hcp)
    (fun j hj => by rw [isContainer_congr (congrFun hs1task j)]; exact hcA j hj)
    (fun j hj => by rw [loggedCacheOf_congr (congrFun hs1task j)]; exact hwA j hj)
    hnd hf
  set s2 : State := totalLoggedSet (fg + 1) s1 p (wp - oldDur + newDur) with hs2
  have hev1 : tlogStartEvent (fg + 1) s1 lid l.lstart v = s2 := by
    unfold tlogStartEvent
    rw [hs1l]
    dsimp only
    unfold updateTotalLoggedEvent
    rw [hs1l]
    dsimp only
    rw [show s1.task l1.taskId = some t from ht]
    dsimp only
    rw [hpar]
    dsimp only
    rw [hgp]
  -- descriptions of the state after the first cascade
  have hlw1 : loggedCacheOf s1 p = some wp := by
    rw [loggedCacheOf_congr (congrFun hs1task p), loggedCacheOf, htp]
    exact htpc
  have hs2p : s2.task p = some { tp with stloggedCache := some (wp - oldDur + newDur) } := by
    rw [hs2, hcasc1.1 p, if_pos rfl, hs1task, htp]
    rfl
  have hs2A : ∀ j ∈ A, s2.task j =
      (s.task j).map (fun tj =>
        { tj with
          stloggedCache := some (tj.stloggedCache.getD 0 + (newDur - oldDur)) }) := by
    intro j hj
    have hjp : j ≠ p := fun h => (List.nodup_cons.1 hnd).1 (h ▸ hj)
    rw [hs2, hcasc1.1 j, if_neg hjp, if_pos hj, hs1task]
    cases hsj : s.task j with
    | none => rfl
    | some tj =>
      simp only [Option.map_some']
      have : tj.stloggedCache.getD 0 + ((wp - oldDur + newDur) - (loggedCacheOf s1 p).getD 0) =
          tj.stloggedCache.getD 0 + (newDur - oldDur) := by
        rw [hlw1]
        simp only [Option.getD_some]
        ring
      rw [this]
  have hs2out : ∀ j, j ∉ p :: A → s2.task j = s.task j := by
    intro j hj
    have hjp : j ≠ p := fun h => hj (h ▸ List.mem_cons_self _ _)
    have hjA : j ∉ A := fun h => hj (List.mem_cons_of_mem _ h)
    rw [hs2, hcasc1.1 j, if_neg hjp, if_neg hjA, hs1task]
  have hs2tlog : s2.tlog = s1.tlog := hcasc1.2.1
  -- the second event is a no-op on the caches
  have hs2l : s2.tlog lid = some l1 := by rw [hs2tlog, hs1l]
  set wp2 : Int := wp - oldDur + newDur with hwp2
  have hgp2 : totalLoggedGet (fg + 1) s2 p = (s2, wp2) :=
    totalLoggedGet_container_pure fg s2 p _ hs2p (by simpa using hpc) wp2 rfl
  have hch2 : AncChain s2 p A := by
    refine AncChain_parent_stable hch (fun j hj tj htj => ?_)
    rcases hj with rfl | hjr
    · rw [htp] at htj
      cases htj
      exact ⟨_, hs2p, rfl⟩
    · refine ⟨{ tj with
                stloggedCache := some (tj.stloggedCache.getD 0 + (newDur - oldDur)) }, ?_, rfl⟩
      rw [hs2A j hjr, htj]
      rfl
  have hcasc2 := totalLoggedSet_cascade A (fg + 1) s2 p wp2 hch2
    (by
      unfold isContainer
      rw [hs2p]
      dsimp only
      unfold isContainer at hcp
      rw [htp] at hcp
      exact hcp)
    (fun j hj => by
      unfold isContainer
      rw [hs2A j hj]
      obtain ⟨wj, hwj⟩ := hwA j hj
      obtain ⟨tj, htj, _⟩ : ∃ tj, s.task j = some tj ∧ tj.stloggedCache = some wj := by
        cases htj : s.task j with
        | none =>
          rw [loggedCacheOf, htj] at hwj
          cases hwj
        | some tj =>
          refine ⟨tj, rfl, ?_⟩
          rw [loggedCacheOf, htj] at hwj
          exact hwj
      rw [htj]
      have := hcA j hj
      unfold isContainer at this
      rw [htj] at this
      exact this)
    (fun j hj => by
      rw [loggedCacheOf, hs2A j hj]
      obtain ⟨wj, hwj⟩ := hwA j hj
      obtain ⟨tj, htj, _⟩ : ∃ tj, s.task j = some tj ∧ tj.stloggedCache = some wj := by
        cases htj : s.task j with
        | none =>
          rw [loggedCacheOf, htj] at hwj
          cases hwj
        | some tj =>
          refine ⟨tj, rfl, ?_⟩
          rw [loggedCacheOf, htj] at hwj
          exact hwj
      rw [htj]
      exact ⟨_, rfl⟩)
    hnd hf
  set s4 : State := totalLoggedSet (fg + 1) s2 p wp2 with hs4
  have hrun : timeLogSetStart (fg + 1) s lid v = s4 := by
    unfold timeLogSetStart
    rw [hl]
    dsimp only
    rw [hvd]
    dsimp only
    rw [hev1]
    rw [hs2l]
    dsimp only
    have heta : ({ l1 with lend := l.lend } : LogData) = l1 := rfl
    rw [heta]
    have hupeq : upLog s2 lid l1 = s2 := by
      have htl : (fun j => if j = lid then some l1 else s2.tlog j) = s2.tlog := by
        funext j
        by_cases hj : j = lid
        · subst hj
          simp only [if_pos rfl]
          exact hs2l.symm
        · simp [hj]
      unfold upLog
      rw [htl]
    rw [hupeq]
    unfold tlogEndEvent
    rw [hs2l]
    dsimp only
    unfold updateTotalLoggedEvent
    rw [hs2l]
    dsimp only
    rw [show s2.task l1.taskId = some t from (hs2out _ hTnotin).trans ht]
    dsimp only
    rw [hpar]
    dsimp only
    rw [hgp2]
    dsimp only
    rw [show wp2 - (l.lend - l1.lstart) + (l.lend - l1.lstart) = wp2 by ring]
  rw [hrun]
  have hs4tlog : s4.tlog = s2.tlog := hcasc2.2.1
  have hs2pc : loggedCacheOf s2 p = some wp2 := by
    rw [loggedCacheOf, hs2p]
    rfl
  refine ⟨?_, ?_, ?_, ?_⟩
  · rw [hs4tlog, hs2l]
  · intro w hw
    rw [hwpv] at hw
    cases hw
    rw [loggedCacheOf, hs4, hcasc2.1 p, if_pos rfl, hs2p]
    simp only [Option.map_some']
    have : wp2 = wp + ((l.lend - v) - (l.lend - l.lstart)) := by
      rw [hwp2, hnewDur, holdDur]
      ring
    rw [← this]
    rfl
  · intro j hj w hw
    have hjp : j ≠ p := fun h => (List.nodup_cons.1 hnd).1 (h ▸ hj)
    obtain ⟨tj, htj, htjc⟩ : ∃ tj, s.task j = some tj ∧ tj.stloggedCache = some w := by
      cases htj : s.task j with
      | none =>
        rw [loggedCacheOf, htj] at hw
        cases hw
      | some tj =>
        refine ⟨tj, rfl, ?_⟩
        rw [loggedCacheOf, htj] at hw
        exact hw
    rw [loggedCacheOf, hs4, hcasc2.1 j, if_neg hjp, if_pos hj, hs2A j hj, htj]
    simp only [Option.map_some', Option.some_bind]
    rw [hs2pc]
    simp only [Option.getD_some, htjc]
    have : w + (newDur - oldDur) + (wp2 - wp2) =
        w + ((l.lend - v) - (l.lend - l.lstart)) := by
      rw [hnewDur, holdDur]
      ring
    rw [this]
  · intro j hj
    have hjp : j ≠ p := fun h => hj (h ▸ List.mem_cons_self _ _)
    have hjA : j ∉ A := fun h => hj (List.mem_cons_of_mem _ h)
    rw [hs4, hcasc2.1 j, if_neg hjp, if_neg hjA]
    exact hs2out j hj

/-- Arena for the C5 witness: container 0 over container 1 over leaf 2,
consistent logged caches of 7200, two logs of resource 9 on task 2. -/
def stateC5 : State :=
  { task := fun i =>
      if i = 0 then
        some { parentId := none, childrenIds := [1], dependsIds := [], resourcesIds := [],
               timeLogIds := [], schedule_timing := 1, schedule_unit := SUnit.uh,
               schedule_model := SModel.effort, schedule_constraint := 0,
               sschedCache := some 7200, stloggedCache := some 7200,
               tstart := 0, tend := 86400, priority := 500 }
      else if i = 1 then
        some { parentId := some 0, childrenIds := [2], dependsIds := [], resourcesIds := [],
               timeLogIds := [], schedule_timing := 1, schedule_unit := SUnit.uh,
               schedule_model := SModel.effort, schedule_constraint := 0,
               sschedCache := some 7200, stloggedCache := some 7200,
               tstart := 0, tend := 86400, priority := 500 }
      else if i = 2 then
        some { parentId := some 1, childrenIds := [], dependsIds := [], resourcesIds := [9],
               timeLogIds := [0, 1], schedule_timing := 2, schedule_unit := SUnit.uh,
               schedule_model := SModel.effort, schedule_constraint := 0,
               sschedCache := none, stloggedCache := none,
               tstart := 0, tend := 10800, priority := 500 }
      else none,
    tlog := fun i =>
      if i = 0 then some { taskId := 2, resourceId := 9, lstart := 0, lend := 3600 }
      else if i = 1 then some { taskId := 2, resourceId := 9, lstart := 7200, lend := 10800 }
      else none,
    logIds := [0, 1] }

/-- C5 witness: moving the start of the 3600 second log back by 1800
seconds adds exactly 1800 seconds to the logged cache of the parent and of
the grandparent. -/
theorem C5_start_mutation_propagates_delta_witness :
    (timeLogSetStart 30 stateC5 0 (-1800)).tlog 0 =
      some { taskId := 2, resourceId := 9, lstart := -1800, lend := 3600 } ∧
    loggedCacheOf (timeLogSetStart 30 stateC5 0 (-1800)) 1 = some 9000 ∧
    loggedCacheOf (timeLogSetStart 30 stateC5 0 (-1800)) 0 = some 9000 := by
  obtain ⟨h1, h2, h3, h4⟩ := C5_start_mutation_propagates_delta 30 stateC5 0 (-1800)
    { taskId := 2, resourceId := 9, lstart := 0, lend := 3600 }
    { parentId := some 1, childrenIds := [], dependsIds := [], resourcesIds := [9],
      timeLogIds := [0, 1], schedule_timing := 2, schedule_unit := SUnit.uh,
      schedule_model := SModel.effort, schedule_constraint := 0,
      sschedCache := none, stloggedCache := none,
      tstart := 0, tend := 10800, priority := 500 }
    1 [0] rfl rfl rfl
    (AncChain.step _ rfl rfl (AncChain.root _ rfl rfl))
    (by decide) (by decide) ⟨7200, rfl⟩
    (by
      intro j hj
      have hj0 : j = 0 := by simpa using hj
      subst hj0
      exact ⟨7200, rfl⟩)
    (by decide) (by decide) (by decide) (by decide)
  refine ⟨h1, ?_, ?_⟩
  · have := h2 7200 rfl
    rw [this]
    norm_num
  · have := h3 0 (by decide) 7200 rfl
    rw [this]
    norm_num

/-- Arena for the C5 counterexample: a root leaf task 2 with two logs of
resource 9 over 0 to 3600 and 7200 to 10800. -/
def stateC5x : State :=
  { task := fun i =>
      if i = 2 then
        some { parentId := none, childrenIds := [], dependsIds := [], resourcesIds := [9],
               timeLogIds := [0, 1], schedule_timing := 3, schedule_unit := SUnit.uh,
               schedule_model := SModel.effort, schedule_constraint := 0,
               sschedCache := none, stloggedCache := none,
               tstart := 0, tend := 10800, priority := 500 }
      else none,
    tlog := fun i =>
      if i = 0 then some { taskId := 2, resourceId := 9, lstart := 0, lend := 3600 }
      else if i = 1 then some { taskId := 2, resourceId := 9, lstart := 7200, lend := 10800 }
      else none,
    logIds := [0, 1] }

/-- C5 counterexample: the claim says mutating a TimeLog start re-runs the
overbooking check against the new interval.  Moving the second log of
resource 9 to start at 3000 makes its start lie strictly inside the open
interval of the first log, the very condition the check rejects, yet the
mutation commits the overlapping interval without any error (the operation
has no error outcome at all), as the scan run on the resulting state
confirms by finding the conflict. -/
theorem C5_no_recheck_counterexample :
    (timeLogSetStart 30 stateC5x 1 3000).tlog 1 =
      some { taskId := 2, resourceId := 9, lstart := 3000, lend := 10800 } ∧
    (timeLogSetStart 30 stateC5x 1 3000).tlog 0 =
      some { taskId := 2, resourceId := 9, lstart := 0, lend := 3600 } ∧
    ((0 : Int) < 3000 ∧ (3000 : Int) < 3600) ∧
    overbookConflict (timeLogSetStart 30 stateC5x 1 3000) 9 (some 2) 3000 10800 = some 0 := by
  refine ⟨by decide, by decide, by decide, by decide⟩

/-- Erases the two date columns, to express that an operation only moves
dates. -/
def stripDates (t : TaskData) : TaskData :=
  { t with tstart := 0, tend := 0 }

/-- The date setters and the range expansion only rewrite the date columns
of task records and never touch the log table. -/
theorem dateOps_strip (f : Nat) :
    (∀ s i v j, ((taskStartSet f s i v).task j).map stripDates = (s.task j).map stripDates ∧
      (taskStartSet f s i v).tlog = s.tlog ∧ (taskStartSet f s i v).logIds = s.logIds) ∧
    (∀ s i v j, ((taskEndSet f s i v).task j).map stripDates = (s.task j).map stripDates ∧
      (taskEndSet f s i v).tlog = s.tlog ∧ (taskEndSet f s i v).logIds = s.logIds) ∧
    (∀ s oi st en j, ((expandDates f s oi st en).task j).map stripDates = (s.task j).map stripDates ∧
      (expandDates f s oi st en).tlog = s.tlog ∧ (expandDates f s oi st en).logIds = s.logIds) := by
  induction f with
  | zero => exact ⟨fun s i v j => ⟨rfl, rfl, rfl⟩, fun s i v j => ⟨rfl, rfl, rfl⟩,
      fun s oi st en j => ⟨rfl, rfl, rfl⟩⟩
  | succ f ih =>
    obtain ⟨ihS, ihE, ihX⟩ := ih
    have hup : ∀ s i (t : TaskData) a b j, s.task i = some t →
        ((upTask s i { t with tstart := a, tend := b }).task j).map stripDates =
          (s.task j).map stripDates := by
      intro s i t a b j ht
      by_cases hj : j = i
      · subst hj
        rw [upTask_task_self, ht]
        rfl
      · rw [upTask_task_ne _ _ _ _ hj]
    refine ⟨?_, ?_, ?_⟩
    · intro s i v j
      unfold taskStartSet
      cases ht : s.task i with
      | none => exact ⟨rfl, rfl, rfl⟩
      | some t =>
        dsimp only
        refine ⟨((ihX _ _ _ _ j).1).trans (hup s i t _ _ j ht), ?_, ?_⟩
        · rw [(ihX _ _ _ _ 0).2.1]
          rfl
        · rw [(ihX _ _ _ _ 0).2.2]
          rfl
    · intro s i v j
      unfold taskEndSet
      cases ht : s.task i with
      | none => exact ⟨rfl, rfl, rfl⟩
      | some t =>
        dsimp only
        refine ⟨((ihX _ _ _ _ j).1).trans (hup s i t _ _ j ht), ?_, ?_⟩
        · rw [(ihX _ _ _ _ 0).2.1]
          rfl
        · rw [(ihX _ _ _ _ 0).2.2]
          rfl
    · intro s oi st en j
      unfold expandDates
      cases oi with
      | none => exact ⟨rfl, rfl, rfl⟩
      | some p =>
        dsimp only
        cases htp : s.task p with
        | none => exact ⟨rfl, rfl, rfl⟩
        | some tp =>
          dsimp only
          set s1 : State := if tp.tstart > st then taskStartSet f s p st else s with hs1
          have hstep1 : ∀ k, (s1.task k).map stripDates = (s.task k).map stripDates ∧
              s1.tlog = s.tlog ∧ s1.logIds = s.logIds := by
            intro k
            rw [hs1]
            split
            · exact ⟨(ihS _ _ _ k).1, (ihS _ _ _ 0).2.1, (ihS _ _ _ 0).2.2⟩
            · exact ⟨rfl, rfl, rfl⟩
          cases hmp : s1.task p with
          | none => exact ⟨(hstep1 j).1, (hstep1 0).2.1, (hstep1 0).2.2⟩
          | some tp2 =>
            dsimp only
            split
            · refine ⟨((ihE _ _ _ j).1).trans (hstep1 j).1, ?_, ?_⟩
              · rw [(ihE _ _ _ 0).2.1]
                exact (hstep1 0).2.1
              · rw [(ihE _ _ _ 0).2.2]
                exact (hstep1 0).2.2
            · exact ⟨(hstep1 j).1, (hstep1 0).2.1, (hstep1 0).2.2⟩

/-- The date maintenance handler for a removed child only moves dates. -/
theorem updateTaskDateValues_strip (f : Nat) (s : State) (i removed : Nat) (now : Int) :
    ∀ j, ((updateTaskDateValues f s i removed now).task j).map stripDates =
        (s.task j).map stripDates ∧
      (updateTaskDateValues f s i removed now).tlog = s.tlog ∧
      (updateTaskDateValues f s i removed now).logIds = s.logIds := by
  intro j
  unfold updateTaskDateValues
  cases ht : s.task i with
  | none => exact ⟨rfl, rfl, rfl⟩
  | some t =>
    dsimp only
    split
    · refine ⟨((dateOps_strip f).2.1 _ _ _ j).1.trans ((dateOps_strip f).1 _ _ _ j).1, ?_, ?_⟩
      · rw [((dateOps_strip f).2.1 _ _ _ 0).2.1]
        exact ((dateOps_strip f).1 _ _ _ 0).2.1
      · rw [((dateOps_strip f).2.1 _ _ _ 0).2.2]
        exact ((dateOps_strip f).1 _ _ _ 0).2.2
    · exact ⟨((dateOps_strip f).1 _ _ _ j).1, ((dateOps_strip f).1 _ _ _ 0).2.1,
        ((dateOps_strip f).1 _ _ _ 0).2.2⟩

/-- Field projections through a stripped-date equality. -/
theorem strip_eq_fields {t1 t2 : TaskData} (h : stripDates t1 = stripDates t2) :
    t1.parentId = t2.parentId ∧ t1.childrenIds = t2.childrenIds ∧
    t1.sschedCache = t2.sschedCache ∧ t1.stloggedCache = t2.stloggedCache := by
  refine ⟨?_, ?_, ?_, ?_⟩
  · have h2 := congrArg TaskData.parentId h
    exact h2
  · have h2 := congrArg TaskData.childrenIds h
    exact h2
  · have h2 := congrArg TaskData.sschedCache h
    exact h2
  · have h2 := congrArg TaskData.stloggedCache h
    exact h2

/-- Cache and link projections through a pointwise stripped-date equality of
option records. -/
theorem strip_opt_fields {o1 o2 : Option TaskData} (h : o1.map stripDates = o2.map stripDates) :
    o1.bind TaskData.sschedCache = o2.bind TaskData.sschedCache ∧
    o1.bind TaskData.stloggedCache = o2.bind TaskData.stloggedCache ∧
    (o1.map TaskData.parentId = o2.map TaskData.parentId) ∧
    (o1.map TaskData.childrenIds = o2.map TaskData.childrenIds) := by
  cases o1 with
  | none =>
    cases o2 with
    | none => exact ⟨rfl, rfl, rfl, rfl⟩
    | some t2 => simp at h
  | some t1 =>
    cases o2 with
    | none => simp at h
    | some t2 =>
      simp only [Option.map_some'] at h
      have hf := strip_eq_fields (Option.some.inj h)
      exact ⟨hf.2.2.1, hf.2.2.2, congrArg some hf.1, congrArg some hf.2.1⟩

/-- The schedule cache read is unchanged by a record map that keeps the
schedule cache field. -/
theorem schedCacheOf_of_map {s' s : State} {j : Nat} {g : TaskData → TaskData}
    (h : s'.task j = (s.task j).map g) (hg : ∀ t, (g t).sschedCache = t.sschedCache) :
    schedCacheOf s' j = schedCacheOf s j := by
  unfold schedCacheOf
  rw [h]
  cases s.task j with
  | none => rfl
  | some t =>
    simp only [Option.map_some', Option.some_bind]
    exact hg t

/-- The logged cache read is unchanged by a record map that keeps the
logged cache field. -/
theorem loggedCacheOf_of_map {s' s : State} {j : Nat} {g : TaskData → TaskData}
    (h : s'.task j = (s.task j).map g) (hg : ∀ t, (g t).stloggedCache = t.stloggedCache) :
    loggedCacheOf s' j = loggedCacheOf s j := by
  unfold loggedCacheOf
  rw [h]
  cases s.task j with
  | none => rfl
  | some t =>
    simp only [Option.map_some', Option.some_bind]
    exact hg t

/-- Container status is unchanged by a record map that keeps the children
list. -/
theorem isContainer_of_map {s' s : State} {j : Nat} {g : TaskData → TaskData}
    (h : s'.task j = (s.task j).map g) (hg : ∀ t, (g t).childrenIds = t.childrenIds) :
    isContainer s' j = isContainer s j := by
  unfold isContainer
  rw [h]
  cases s.task j with
  | none => rfl
  | some t =>
    simp only [Option.map_some']
    rw [hg t]

/-- A present schedule cache read forces a present record whose cache
column holds the value. -/
theorem cache_some_record {s : State} {j : Nat} {w : Int}
    (h : schedCacheOf s j = some w) :
    ∃ tj, s.task j = some tj ∧ tj.sschedCache = some w := by
  unfold schedCacheOf at h
  cases htj : s.task j with
  | none => rw [htj] at h; cases h
  | some tj =>
    rw [htj] at h
    exact ⟨tj, rfl, h⟩

/-- A present logged cache read forces a present record whose cache column
holds the value. -/
theorem logged_some_record {s : State} {j : Nat} {w : Int}
    (h : loggedCacheOf s j = some w) :
    ∃ tj, s.task j = some tj ∧ tj.stloggedCache = some w := by
  unfold loggedCacheOf at h
  cases htj : s.task j with
  | none => rw [htj] at h; cases h
  | some tj =>
    rw [htj] at h
    exact ⟨tj, rfl, h⟩

/-- The leaf logged sum only reads the log table. -/
theorem leafLoggedSeconds_congr {s' s : State} (t : TaskData) (h : s'.tlog = s.tlog) :
    leafLoggedSeconds s' t = leafLoggedSeconds s t := by
  unfold leafLoggedSeconds
  rw [h]

/-- Arena for the C6 counterexample: root 0 is a container over the
container 1 (which holds the 2 hour leaf 3) and the 1 hour leaf 2; all
container caches are consistent (10800 at the root is 7200 from task 1
plus 3600 of the leaf schedule of task 2). -/
def stateC6 : State :=
  { task := fun i =>
      if i = 0 then
        some { parentId := none, childrenIds := [1, 2], dependsIds := [], resourcesIds := [],
               timeLogIds := [], schedule_timing := 1, schedule_unit := SUnit.uh,
               schedule_model := SModel.effort, schedule_constraint := 0,
               sschedCache := some 10800, stloggedCache := some 0,
               tstart := 0, tend := 86400, priority := 500 }
      else if i = 1 then
        some { parentId := some 0, childrenIds := [3], dependsIds := [], resourcesIds := [],
               timeLogIds := [], schedule_timing := 1, schedule_unit := SUnit.uh,
               schedule_model := SModel.effort, schedule_constraint := 0,
               sschedCache := some 7200, stloggedCache := some 0,
               tstart := 0, tend := 86400, priority := 500 }
      else if i = 2 then
        some { parentId := some 0, childrenIds := [], dependsIds := [], resourcesIds := [],
               timeLogIds := [], schedule_timing := 1, schedule_unit := SUnit.uh,
               schedule_model := SModel.effort, schedule_constraint := 0,
               sschedCache := none, stloggedCache := none,
               tstart := 0, tend := 3600, priority := 500 }
      else if i = 3 then
        some { parentId := some 1, childrenIds := [], dependsIds := [], resourcesIds := [],
               timeLogIds := [], schedule_timing := 2, schedule_unit := SUnit.uh,
               schedule_model := SModel.effort, schedule_constraint := 0,
               sschedCache := none, stloggedCache := none,
               tstart := 0, tend := 7200, priority := 500 }
      else none,
    tlog := fun _ => none,
    logIds := [] }

/-- A list contains the element its getLast? returns. -/
theorem getLast_some_mem {α : Type} {l : List α} {x : α}
    (h : l.getLast? = some x) : x ∈ l := by
  have hmem : x ∈ l.getLast? := h
  obtain ⟨hne, hx⟩ := List.mem_getLast?_eq_getLast hmem
  rw [hx]
  exact List.getLast_mem hne

/-- C6 counterexample against the global root sum invariance: in stateC6
the single root 0 carries the consistent schedule cache 10800; reparenting
the leaf 3 from container 1 to task 2, a reparent within the same tree
whose target was previously a leaf, commits with the target cache replaced
by the child contribution 7200, yet the root cache drops to 7200: the sum
of schedule_seconds over root level tasks is not invariant, because the
former own leaf contribution 3600 of task 2 disappears from every
ancestor when task 2 turns into a container. -/
theorem C6_leaf_target_breaks_root_sum :
    schedCacheOf stateC6 0 = some 10800 ∧
    (setParent 30 stateC6 3 (some 2) 50).toOption.map (fun s =>
      (schedCacheOf s 0, schedCacheOf s 1,
       (s.task 2).map (fun t => (t.sschedCache, t.childrenIds)),
       (s.task 3).map TaskData.parentId)) =
      some (some 7200, some 0, some (some 7200, [3]), some (some 2)) := by
  refine ⟨by decide, by rfl⟩

/-- The head of a nonempty ancestor chain has a parent, the first chain
element. -/
theorem AncChain_head_parent {s : State} {i : Nat} {l : List Nat} (h : AncChain s i l)
    (hne : l ≠ []) : ∀ t, s.task i = some t → ∃ p, t.parentId = some p ∧ p ∈ l := by
  cases h with
  | root t0 ht0 hp0 => exact absurd rfl hne
  | step t0 ht0 hp0 hrec =>
    intro t htx
    rw [ht0] at htx
    cases htx
    exact ⟨_, hp0, List.mem_cons_self _ _⟩

/-- C6 amended: reparenting a leaf task from container P1 to an existing
container P2 inside the same tree decreases the schedule cache of P1 by
exactly the task contribution to_seconds(timing, unit) and increases the
cache of P2 by exactly that amount, with the shift cascaded along both
ancestor chains, and the schedule cache of every root task of the state is
unchanged (the shifts cancel at the shared root, so the global root level
sum is invariant in this container-to-container case). -/
theorem C6_container_reparent_shifts_caches
    (fg : Nat) (s : State) (tid P1 P2 : Nat) (A1 A2 : List Nat) (now : Int)
    (tT tp1 tp2 : TaskData) (w1 u1 w2 u2 : Int)
    (ht : s.task tid = some tT)
    (hleafT : tT.childrenIds = [])
    (hdepT : tT.dependsIds = [])
    (hparT : tT.parentId = some P1)
    (htp1 : s.task P1 = some tp1)
    (htp1c : tp1.sschedCache = some w1)
    (hw10 : 0 ≤ w1)
    (htp1l : tp1.stloggedCache = some u1)
    (htp2 : s.task P2 = some tp2)
    (htp2c : tp2.sschedCache = some w2)
    (hw20 : 0 ≤ w2)
    (htp2l : tp2.stloggedCache = some u2)
    (hch1 : AncChain s P1 A1)
    (hch2 : AncChain s P2 A2)
    (hc1 : ∀ j ∈ P1 :: A1, isContainer s j = true)
    (hc2 : ∀ j ∈ P2 :: A2, isContainer s j = true)
    (hwA1 : ∀ j ∈ A1, ∃ w, schedCacheOf s j = some w ∧
      to_seconds tT.schedule_timing tT.schedule_unit tT.schedule_model ≤ w)
    (hwA2 : ∀ j ∈ A2, ∃ w, schedCacheOf s j = some w ∧ 0 ≤ w)
    (hlA1 : ∀ j ∈ A1, ∃ w, loggedCacheOf s j = some w)
    (hlA2 : ∀ j ∈ A2, ∃ w, loggedCacheOf s j = some w)
    (hnd1 : (P1 :: A1).Nodup)
    (hnd2 : (P2 :: A2).Nodup)
    (hT1 : tid ∉ P1 :: A1)
    (hT2 : tid ∉ P2 :: A2)
    (hP12 : P1 ∉ P2 :: A2)
    (hP21 : P2 ∉ P1 :: A1)
    (hlast : (P1 :: A1).getLast? = (P2 :: A2).getLast?)
    (hf1 : A1.length + 1 ≤ fg + 1)
    (hf2 : A2.length + 1 ≤ fg + 1) :
    ∃ sF, setParent (fg + 1) s tid (some P2) now = Except.ok sF ∧
      schedCacheOf sF P1 =
        some (w1 - to_seconds tT.schedule_timing tT.schedule_unit tT.schedule_model) ∧
      schedCacheOf sF P2 =
        some (w2 + to_seconds tT.schedule_timing tT.schedule_unit tT.schedule_model) ∧
      (∀ j tj, s.task j = some tj → tj.parentId = none →
        schedCacheOf sF j = schedCacheOf s j) := by
  set S := to_seconds tT.schedule_timing tT.schedule_unit tT.schedule_model with hSdef
  have hS0 : 0 ≤ S := to_seconds_nonneg _ _ _
  have hcP1 : isContainer s P1 = true := hc1 P1 (List.mem_cons_self _ _)
  have hcP2 : isContainer s P2 = true := hc2 P2 (List.mem_cons_self _ _)
  have hch1ne : tp1.childrenIds ≠ [] := container_children_ne htp1 hcP1
  have hch2ne : tp2.childrenIds ≠ [] := container_children_ne htp2 hcP2
  have htidne1 : tid ≠ P1 := fun h => hT1 (by rw [h]; exact List.mem_cons_self _ _)
  have htidnA1 : tid ∉ A1 := fun h => hT1 (List.mem_cons_of_mem _ h)
  have htidne2 : tid ≠ P2 := fun h => hT2 (by rw [h]; exact List.mem_cons_self _ _)
  have htidnA2 : tid ∉ A2 := fun h => hT2 (List.mem_cons_of_mem _ h)
  have hP1ne2 : P1 ≠ P2 := fun h => hP12 (by rw [h]; exact List.mem_cons_self _ _)
  have hP1nA2 : P1 ∉ A2 := fun h => hP12 (List.mem_cons_of_mem _ h)
  have hP2ne1 : P2 ≠ P1 := fun h => hP21 (by rw [h]; exact List.mem_cons_self _ _)
  have hP2nA1 : P2 ∉ A1 := fun h => hP21 (List.mem_cons_of_mem _ h)
  have hP1nA1 : P1 ∉ A1 := (List.nodup_cons.1 hnd1).1
  have hP2nA2 : P2 ∉ A2 := (List.nodup_cons.1 hnd2).1
  have hscP1 : schedCacheOf s P1 = some w1 := by
    unfold schedCacheOf
    rw [htp1]
    exact htp1c
  have hrc : reachableVia childrenOf s (fg + 1) tid P2 = false := by
    unfold reachableVia
    have hcl : childrenOf s tid = [] := by
      unfold childrenOf
      rw [ht]
      exact hleafT
    rw [hcl]
    rfl
  have hrd : reachableVia dependsOf s (fg + 1) tid P2 = false := by
    unfold reachableVia
    have hcl : dependsOf s tid = [] := by
      unfold dependsOf
      rw [ht]
      exact hdepT
    rw [hcl]
    rfl
  unfold setParent
  rw [ht]
  dsimp only
  rw [hrc, hrd]
  simp only [Bool.or_false, Bool.false_eq_true, if_false]
  rw [hparT]
  dsimp only
  rw [scheduleSecondsGet_container_pure fg s P1 tp1 htp1 hch1ne w1 htp1c hw10]
  dsimp only
  rw [scheduleSecondsGet_leaf fg s tid tT ht hleafT]
  dsimp only
  rw [← hSdef]
  set s1a := scheduleSecondsSet (fg + 1) s P1 (w1 - S) with hs1adef
  have F1 := scheduleSecondsSet_cascade A1 (fg + 1) s P1 (w1 - S) hch1 hcP1
    (fun j hj => hc1 j (List.mem_cons_of_mem _ hj))
    (fun j hj => by
      obtain ⟨w, hw, hwS⟩ := hwA1 j hj
      exact ⟨w, hw, le_trans hS0 hwS⟩)
    hnd1 hf1
  rw [← hs1adef] at F1
  have hF1rec : ∀ j tj, s.task j = some tj → ∃ tj', s1a.task j = some tj' ∧
      tj'.parentId = tj.parentId ∧ tj'.childrenIds = tj.childrenIds ∧
      tj'.stloggedCache = tj.stloggedCache := by
    intro j tj htj0
    rw [F1.1 j, htj0]
    split
    · exact ⟨_, rfl, rfl, rfl, rfl⟩
    · split
      · exact ⟨_, rfl, rfl, rfl, rfl⟩
      · exact ⟨_, rfl, rfl, rfl, rfl⟩
  have hF1cont : ∀ k, isContainer s1a k = isContainer s k := by
    intro k
    by_cases h1 : k = P1
    · subst h1
      have h := F1.1 k
      rw [if_pos rfl] at h
      exact isContainer_of_map h (fun t => rfl)
    · by_cases h2 : k ∈ A1
      · have h := F1.1 k
        rw [if_neg h1, if_pos h2] at h
        exact isContainer_of_map h (fun t => rfl)
      · exact isContainer_congr (by rw [F1.1 k, if_neg h1, if_neg h2])
  have hF1log : ∀ k, loggedCacheOf s1a k = loggedCacheOf s k := by
    intro k
    by_cases h1 : k = P1
    · subst h1
      have h := F1.1 k
      rw [if_pos rfl] at h
      exact loggedCacheOf_of_map h (fun t => rfl)
    · by_cases h2 : k ∈ A1
      · have h := F1.1 k
        rw [if_neg h1, if_pos h2] at h
        exact loggedCacheOf_of_map h (fun t => rfl)
      · exact loggedCacheOf_congr (by rw [F1.1 k, if_neg h1, if_neg h2])
  have hs1aP1 : s1a.task P1 = some { tp1 with sschedCache := some (w1 - S) } := by
    rw [F1.1 P1, if_pos rfl, htp1]
    rfl
  have hs1atid : s1a.task tid = some tT := by
    rw [F1.1 tid, if_neg htidne1, if_neg htidnA1]
    exact ht
  rw [totalLoggedGet_container_pure fg s1a P1 { tp1 with sschedCache := some (w1 - S) }
    hs1aP1 hch1ne u1 htp1l]
  dsimp only
  rw [totalLoggedGet_leaf fg s1a tid tT hs1atid hleafT]
  dsimp only
  rw [leafLoggedSeconds_congr tT F1.2.1]
  set LT := leafLoggedSeconds s tT with hLTdef
  set s1 := totalLoggedSet (fg + 1) s1a P1 (u1 - LT) with hs1def
  have F2 := totalLoggedSet_cascade A1 (fg + 1) s1a P1 (u1 - LT)
    (AncChain_parent_stable hch1 (by
      intro j hj tj htj0
      obtain ⟨tj', h1, h2, _, _⟩ := hF1rec j tj htj0
      exact ⟨tj', h1, h2⟩))
    (by rw [hF1cont]; exact hcP1)
    (fun j hj => by rw [hF1cont]; exact hc1 j (List.mem_cons_of_mem _ hj))
    (fun j hj => by rw [hF1log]; exact hlA1 j hj)
    hnd1 hf1
  rw [← hs1def] at F2
  have hF2rec : ∀ j tj, s1a.task j = some tj → ∃ tj', s1.task j = some tj' ∧
      tj'.parentId = tj.parentId ∧ tj'.childrenIds = tj.childrenIds ∧
      tj'.sschedCache = tj.sschedCache := by
    intro j tj htj0
    rw [F2.1 j, htj0]
    split
    · exact ⟨_, rfl, rfl, rfl, rfl⟩
    · split
      · exact ⟨_, rfl, rfl, rfl, rfl⟩
      · exact ⟨_, rfl, rfl, rfl, rfl⟩
  have hF2cont : ∀ k, isContainer s1 k = isContainer s1a k := by
    intro k
    by_cases h1 : k = P1
    · subst h1
      have h := F2.1 k
      rw [if_pos rfl] at h
      exact isContainer_of_map h (fun t => rfl)
    · by_cases h2 : k ∈ A1
      · have h := F2.1 k
        rw [if_neg h1, if_pos h2] at h
        exact isContainer_of_map h (fun t => rfl)
      · exact isContainer_congr (by rw [F2.1 k, if_neg h1, if_neg h2])
  have hF2sched : ∀ k, schedCacheOf s1 k = schedCacheOf s1a k := by
    intro k
    by_cases h1 : k = P1
    · subst h1
      have h := F2.1 k
      rw [if_pos rfl] at h
      exact schedCacheOf_of_map h (fun t => rfl)
    · by_cases h2 : k ∈ A1
      · have h := F2.1 k
        rw [if_neg h1, if_pos h2] at h
        exact schedCacheOf_of_map h (fun t => rfl)
      · exact schedCacheOf_congr (by rw [F2.1 k, if_neg h1, if_neg h2])
  have hs1P1 : s1.task P1 =
      some { tp1 with sschedCache := some (w1 - S), stloggedCache := some (u1 - LT) } := by
    rw [F2.1 P1, if_pos rfl, hs1aP1]
    rfl
  have hs1tid : s1.task tid = some tT := by
    rw [F2.1 tid, if_neg htidne1, if_neg htidnA1]
    exact hs1atid
  have hs1P2 : s1.task P2 = some tp2 := by
    rw [F2.1 P2, if_neg hP2ne1, if_neg hP2nA1, F1.1 P2, if_neg hP2ne1, if_neg hP2nA1]
    exact htp2
  have hch2a : AncChain s1a P2 A2 := by
    refine AncChain_parent_stable hch2 ?_
    intro j hj tj htj0
    obtain ⟨tj', h1, h2, _, _⟩ := hF1rec j tj htj0
    exact ⟨tj', h1, h2⟩
  have hch2b : AncChain s1 P2 A2 := by
    refine AncChain_parent_stable hch2a ?_
    intro j hj tj htj0
    obtain ⟨tj', h1, h2, _, _⟩ := hF2rec j tj htj0
    exact ⟨tj', h1, h2⟩
  have hleafP2false : isLeaf s1 P2 = false := by
    unfold isLeaf
    rw [hF2cont P2, hF1cont P2, hcP2]
    rfl
  rw [hleafP2false]
  simp only [Bool.false_eq_true, if_false]
  rw [scheduleSecondsGet_container_pure fg s1 P2 tp2 hs1P2 hch2ne w2 htp2c hw20]
  dsimp only
  rw [scheduleSecondsGet_leaf fg s1 tid tT hs1tid hleafT]
  dsimp only
  rw [← hSdef]
  set s2a := scheduleSecondsSet (fg + 1) s1 P2 (w2 + S) with hs2adef
  have hscs1P2 : schedCacheOf s1 P2 = some w2 := by
    unfold schedCacheOf
    rw [hs1P2]
    exact htp2c
  have F3 := scheduleSecondsSet_cascade A2 (fg + 1) s1 P2 (w2 + S) hch2b
    (by rw [hF2cont, hF1cont]; exact hcP2)
    (fun j hj => by rw [hF2cont, hF1cont]; exact hc2 j (List.mem_cons_of_mem _ hj))
    (fun j hj => by
      have hjP1 : j ≠ P1 := fun h => hP1nA2 (h ▸ hj)
      rw [hF2sched j]
      by_cases hjA1 : j ∈ A1
      · obtain ⟨w, hw, hwS⟩ := hwA1 j hjA1
        obtain ⟨tj, htj0, htjc⟩ := cache_some_record hw
        have hv : schedCacheOf s1a j = some (tj.sschedCache.getD 0 + ((w1 - S) - w1)) := by
          unfold schedCacheOf
          rw [F1.1 j, if_neg hjP1, if_pos hjA1, htj0, hscP1]
          rfl
        rw [hv, htjc]
        refine ⟨_, rfl, ?_⟩
        simp only [Option.getD_some]
        omega
      · have hv : schedCacheOf s1a j = schedCacheOf s j := by
          unfold schedCacheOf
          rw [F1.1 j, if_neg hjP1, if_neg hjA1]
        rw [hv]
        exact hwA2 j hj)
    hnd2 hf2
  rw [← hs2adef] at F3
  have hF3rec : ∀ j tj, s1.task j = some tj → ∃ tj', s2a.task j = some tj' ∧
      tj'.parentId = tj.parentId ∧ tj'.childrenIds = tj.childrenIds ∧
      tj'.stloggedCache = tj.stloggedCache := by
    intro j tj htj0
    rw [F3.1 j, htj0]
    split
    · exact ⟨_, rfl, rfl, rfl, rfl⟩
    · split
      · exact ⟨_, rfl, rfl, rfl, rfl⟩
      · exact ⟨_, rfl, rfl, rfl, rfl⟩
  have hF3cont : ∀ k, isContainer s2a k = isContainer s1 k := by
    intro k
    by_cases h1 : k = P2
    · subst h1
      have h := F3.1 k
      rw [if_pos rfl] at h
      exact isContainer_of_map h (fun t => rfl)
    · by_cases h2 : k ∈ A2
      · have h := F3.1 k
        rw [if_neg h1, if_pos h2] at h
        exact isContainer_of_map h (fun t => rfl)
      · exact isContainer_congr (by rw [F3.1 k, if_neg h1, if_neg h2])
  have hF3log : ∀ k, loggedCacheOf s2a k = loggedCacheOf s1 k := by
    intro k
    by_cases h1 : k = P2
    · subst h1
      have h := F3.1 k
      rw [if_pos rfl] at h
      exact loggedCacheOf_of_map h (fun t => rfl)
    · by_cases h2 : k ∈ A2
      · have h := F3.1 k
        rw [if_neg h1, if_pos h2] at h
        exact loggedCacheOf_of_map h (fun t => rfl)
      · exact loggedCacheOf_congr (by rw [F3.1 k, if_neg h1, if_neg h2])
  have hs2aP2 : s2a.task P2 = some { tp2 with sschedCache := some (w2 + S) } := by
    rw [F3.1 P2, if_pos rfl, hs1P2]
    rfl
  have hs2atid : s2a.task tid = some tT := by
    rw [F3.1 tid, if_neg htidne2, if_neg htidnA2]
    exact hs1tid
  rw [totalLoggedGet_container_pure fg s2a P2 { tp2 with sschedCache := some (w2 + S) }
    hs2aP2 hch2ne u2 htp2l]
  dsimp only
  rw [totalLoggedGet_leaf fg s2a tid tT hs2atid hleafT]
  dsimp only
  have htlog2a : s2a.tlog = s.tlog := by
    rw [F3.2.1, F2.2.1, F1.2.1]
  rw [(leafLoggedSeconds_congr tT htlog2a).trans hLTdef.symm]
  set s2 := totalLoggedSet (fg + 1) s2a P2 (u2 + LT) with hs2def
  have hch2c : AncChain s2a P2 A2 := by
    refine AncChain_parent_stable hch2b ?_
    intro j hj tj htj0
    obtain ⟨tj', h1, h2, _, _⟩ := hF3rec j tj htj0
    exact ⟨tj', h1, h2⟩
  have F4 := totalLoggedSet_cascade A2 (fg + 1) s2a P2 (u2 + LT) hch2c
    (by rw [hF3cont, hF2cont, hF1cont]; exact hcP2)
    (fun j hj => by rw [hF3cont, hF2cont, hF1cont]; exact hc2 j (List.mem_cons_of_mem _ hj))
    (fun j hj => by
      have hjP1 : j ≠ P1 := fun h => hP1nA2 (h ▸ hj)
      rw [hF3log j]
      by_cases hjA1 : j ∈ A1
      · obtain ⟨w, hw⟩ := hlA1 j hjA1
        obtain ⟨tj, htj0, htjl⟩ := logged_some_record hw
        obtain ⟨tj', htj1, _, _, _⟩ := hF1rec j tj htj0
        unfold loggedCacheOf
        rw [F2.1 j, if_neg hjP1, if_pos hjA1, htj1]
        exact ⟨_, rfl⟩
      · have hv : loggedCacheOf s1 j = loggedCacheOf s1a j := by
          unfold loggedCacheOf
          rw [F2.1 j, if_neg hjP1, if_neg hjA1]
        rw [hv, hF1log j]
        exact hlA2 j hj)
    hnd2 hf2
  rw [← hs2def] at F4
  have hs2P2 : s2.task P2 =
      some { tp2 with sschedCache := some (w2 + S), stloggedCache := some (u2 + LT) } := by
    rw [F4.1 P2, if_pos rfl, hs2aP2]
    rfl
  have hs2tid : s2.task tid = some tT := by
    rw [F4.1 tid, if_neg htidne2, if_neg htidnA2]
    exact hs2atid
  have hs2P1 : s2.task P1 =
      some { tp1 with sschedCache := some (w1 - S), stloggedCache := some (u1 - LT) } := by
    rw [F4.1 P1, if_neg hP1ne2, if_neg hP1nA2, F3.1 P1, if_neg hP1ne2, if_neg hP1nA2]
    exact hs1P1
  set s3 := updateTaskDateValues (fg + 1)
    (modTask s2 P1 (fun t => { t with childrenIds := t.childrenIds.filter (fun x => x ≠ tid) }))
    P1 tid now with hs3def
  have HS3 := fun k => updateTaskDateValues_strip (fg + 1)
    (modTask s2 P1 (fun t => { t with childrenIds := t.childrenIds.filter (fun x => x ≠ tid) }))
    P1 tid now k
  rw [← hs3def] at HS3
  have hmodP1 : (modTask s2 P1
      (fun t => { t with childrenIds := t.childrenIds.filter (fun x => x ≠ tid) })).task P1 =
      some { tp1 with
             sschedCache := some (w1 - S), stloggedCache := some (u1 - LT),
             childrenIds := tp1.childrenIds.filter (fun x => x ≠ tid) } := by
    rw [modTask_eq _ _ _ _ hs2P1, upTask_task_self]
  have hmodO : ∀ k, k ≠ P1 → (modTask s2 P1
      (fun t => { t with childrenIds := t.childrenIds.filter (fun x => x ≠ tid) })).task k =
      s2.task k := by
    intro k hk
    rw [modTask_eq _ _ _ _ hs2P1]
    exact upTask_task_ne _ _ _ _ hk
  have hexP2 : ∃ t3, s3.task P2 = some t3 ∧ stripDates t3 =
      stripDates { tp2 with sschedCache := some (w2 + S), stloggedCache := some (u2 + LT) } := by
    have hstrP2 : (s3.task P2).map stripDates =
        some (stripDates { tp2 with
          sschedCache := some (w2 + S), stloggedCache := some (u2 + LT) }) := by
      rw [(HS3 P2).1, hmodO P2 hP2ne1, hs2P2]
      rfl
    cases hcase : s3.task P2 with
    | none =>
      rw [hcase] at hstrP2
      simp at hstrP2
    | some t3 =>
      rw [hcase] at hstrP2
      simp only [Option.map_some'] at hstrP2
      exact ⟨t3, rfl, Option.some.inj hstrP2⟩
  obtain ⟨t3, hs3P2m, hstr3⟩ := hexP2
  have hexTid : ∃ tT3, s3.task tid = some tT3 ∧ stripDates tT3 = stripDates tT := by
    have hstrTid : (s3.task tid).map stripDates = some (stripDates tT) := by
      rw [(HS3 tid).1, hmodO tid htidne1, hs2tid]
      rfl
    cases hcase : s3.task tid with
    | none =>
      rw [hcase] at hstrTid
      simp at hstrTid
    | some tT3 =>
      rw [hcase] at hstrTid
      simp only [Option.map_some'] at hstrTid
      exact ⟨tT3, rfl, Option.some.inj hstrTid⟩
  obtain ⟨tT3, hs3tidm, hstrT3⟩ := hexTid
  unfold validateChildren
  rw [hs3P2m]
  dsimp only
  have ht3ch : t3.childrenIds = tp2.childrenIds := (strip_eq_fields hstr3).2.1
  have ht3empty : t3.childrenIds.isEmpty = false := by
    rw [ht3ch]
    cases hx : tp2.childrenIds with
    | nil => exact absurd hx hch2ne
    | cons a l => rfl
  rw [ht3empty]
  simp only [Bool.false_eq_true, if_false]
  rw [show (upTask s3 P2 { t3 with resourcesIds := [] }).task tid = some tT3 from
    (upTask_task_ne _ _ _ _ htidne2).trans hs3tidm]
  dsimp only
  set sE := expandDates (fg + 1) (upTask s3 P2 { t3 with resourcesIds := [] })
    (some P2) tT3.tstart tT3.tend with hsEdef
  have HSE := fun k => (dateOps_strip (fg + 1)).2.2
    (upTask s3 P2 { t3 with resourcesIds := [] }) (some P2) tT3.tstart tT3.tend k
  rw [← hsEdef] at HSE
  have hexEP2 : ∃ t5, sE.task P2 = some t5 ∧ stripDates t5 =
      stripDates { t3 with resourcesIds := ([] : List Nat) } := by
    have hstrEP2 : (sE.task P2).map stripDates =
        some (stripDates { t3 with resourcesIds := ([] : List Nat) }) := by
      rw [(HSE P2).1, upTask_task_self]
      rfl
    cases hcase : sE.task P2 with
    | none =>
      rw [hcase] at hstrEP2
      simp at hstrEP2
    | some t5 =>
      rw [hcase] at hstrEP2
      simp only [Option.map_some'] at hstrEP2
      exact ⟨t5, rfl, Option.some.inj hstrEP2⟩
  obtain ⟨t5, hsEP2m, hstr5⟩ := hexEP2
  have hexEtid : ∃ tT5, sE.task tid = some tT5 ∧ stripDates tT5 = stripDates tT3 := by
    have hstrEtid : (sE.task tid).map stripDates = some (stripDates tT3) := by
      rw [(HSE tid).1, upTask_task_ne _ _ _ _ htidne2, hs3tidm]
      rfl
    cases hcase : sE.task tid with
    | none =>
      rw [hcase] at hstrEtid
      simp at hstrEtid
    | some tT5 =>
      rw [hcase] at hstrEtid
      simp only [Option.map_some'] at hstrEtid
      exact ⟨tT5, rfl, Option.some.inj hstrEtid⟩
  obtain ⟨tT5, hsEtidm, hstrT5⟩ := hexEtid
  have hftid : (modTask sE P2
      (fun t => { t with childrenIds := t.childrenIds ++ [tid] })).task tid = some tT5 := by
    rw [modTask_eq _ _ _ _ hsEP2m]
    exact (upTask_task_ne _ _ _ _ htidne2).trans hsEtidm
  refine ⟨_, rfl, ?_, ?_, ?_⟩
  · unfold schedCacheOf
    rw [modTask_eq _ _ _ _ hftid, upTask_task_ne _ _ _ _ (Ne.symm htidne1),
        modTask_eq _ _ _ _ hsEP2m, upTask_task_ne _ _ _ _ hP1ne2]
    have hms : (sE.task P1).map stripDates =
        (some { tp1 with
                sschedCache := some (w1 - S), stloggedCache := some (u1 - LT),
                childrenIds := tp1.childrenIds.filter (fun x => x ≠ tid) }).map stripDates := by
      rw [(HSE P1).1, upTask_task_ne _ _ _ _ hP1ne2, (HS3 P1).1, hmodP1]
    rw [(strip_opt_fields hms).1]
    rfl
  · unfold schedCacheOf
    rw [modTask_eq _ _ _ _ hftid, upTask_task_ne _ _ _ _ (Ne.symm htidne2),
        modTask_eq _ _ _ _ hsEP2m, upTask_task_self]
    have ht5c : t5.sschedCache = some (w2 + S) := by
      have h1 := (strip_eq_fields hstr5).2.2.1
      have h2 := (strip_eq_fields hstr3).2.2.1
      exact h1.trans h2
    exact ht5c
  · intro j tj htj hroot
    have hA1ne : A1 ≠ [] := by
      intro h
      apply hP12
      refine getLast_some_mem ?_
      rw [← hlast, h]
      rfl
    have hA2ne : A2 ≠ [] := by
      intro h
      apply hP21
      refine getLast_some_mem ?_
      rw [hlast, h]
      rfl
    obtain ⟨p1, hp1, _⟩ := AncChain_head_parent hch1 hA1ne tp1 htp1
    obtain ⟨p2, hp2, _⟩ := AncChain_head_parent hch2 hA2ne tp2 htp2
    have hjtid : j ≠ tid := by
      intro h
      subst h
      rw [ht] at htj
      cases htj
      rw [hparT] at hroot
      cases hroot
    have hjP1 : j ≠ P1 := by
      intro h
      subst h
      rw [htp1] at htj
      cases htj
      rw [hp1] at hroot
      cases hroot
    have hjP2 : j ≠ P2 := by
      intro h
      subst h
      rw [htp2] at htj
      cases htj
      rw [hp2] at hroot
      cases hroot
    unfold schedCacheOf
    rw [modTask_eq _ _ _ _ hftid, upTask_task_ne _ _ _ _ hjtid,
        modTask_eq _ _ _ _ hsEP2m, upTask_task_ne _ _ _ _ hjP2]
    have hms : (sE.task j).map stripDates = (s2.task j).map stripDates := by
      rw [(HSE j).1, upTask_task_ne _ _ _ _ hjP2, (HS3 j).1, hmodO j hjP1]
    rw [(strip_opt_fields hms).1]
    by_cases hjA1 : j ∈ A1
    · have hlast1 : (P1 :: A1).getLast? = some j :=
        AncChain_root_is_last hch1 j (List.mem_cons_of_mem _ hjA1) tj htj hroot
      have hjmem2 : j ∈ P2 :: A2 := getLast_some_mem (hlast.symm.trans hlast1)
      have hjA2 : j ∈ A2 := by
        rcases List.mem_cons.1 hjmem2 with h | h
        · exact absurd h hjP2
        · exact h
      obtain ⟨wj, hwj, hwjS⟩ := hwA1 j hjA1
      obtain ⟨tj0, htj0, htjc0⟩ := cache_some_record hwj
      rw [htj] at htj0
      cases htj0
      have hsj1 : s1a.task j = some { tj with
          sschedCache := some (tj.sschedCache.getD 0 + ((w1 - S) - w1)) } := by
        rw [F1.1 j, if_neg hjP1, if_pos hjA1, htj, hscP1]
        rfl
      have hsj2 : ∃ lc, s1.task j = some { tj with
          sschedCache := some (tj.sschedCache.getD 0 + ((w1 - S) - w1)),
          stloggedCache := lc } := by
        rw [F2.1 j, if_neg hjP1, if_pos hjA1, hsj1]
        exact ⟨_, rfl⟩
      obtain ⟨lc, hsj2⟩ := hsj2
      have hsj3 : s2a.task j = some { tj with
          sschedCache := some ((tj.sschedCache.getD 0 + ((w1 - S) - w1)) + ((w2 + S) - w2)),
          stloggedCache := lc } := by
        rw [F3.1 j, if_neg hjP2, if_pos hjA2, hsj2, hscs1P2]
        rfl
      have hsj4 : ∃ lc2, s2.task j = some { tj with
          sschedCache := some ((tj.sschedCache.getD 0 + ((w1 - S) - w1)) + ((w2 + S) - w2)),
          stloggedCache := lc2 } := by
        rw [F4.1 j, if_neg hjP2, if_pos hjA2, hsj3]
        exact ⟨_, rfl⟩
      obtain ⟨lc2, hsj4⟩ := hsj4
      rw [hsj4, htj]
      simp only [Option.some_bind]
      rw [htjc0]
      simp only [Option.getD_some]
      exact congrArg some (by omega)
    · have hjA2 : j ∉ A2 := by
        intro h2
        have hlast2 : (P2 :: A2).getLast? = some j :=
          AncChain_root_is_last hch2 j (List.mem_cons_of_mem _ h2) tj htj hroot
        have hjmem1 : j ∈ P1 :: A1 := getLast_some_mem (hlast.trans hlast2)
        rcases List.mem_cons.1 hjmem1 with h | h
        · exact hjP1 h
        · exact hjA1 h
      rw [F4.1 j, if_neg hjP2, if_neg hjA2, F3.1 j, if_neg hjP2, if_neg hjA2,
          F2.1 j, if_neg hjP1, if_neg hjA1, F1.1 j, if_neg hjP1, if_neg hjA1]

/-- Arena for the C6 witness: root 0 over containers 1 (holding the 2 hour
leaf 3) and 2 (holding the 1 hour leaf 4); all caches consistent. -/
def stateC6b : State :=
  { task := fun i =>
      if i = 0 then
        some { parentId := none, childrenIds := [1, 2], dependsIds := [], resourcesIds := [],
               timeLogIds := [], schedule_timing := 1, schedule_unit := SUnit.uh,
               schedule_model := SModel.effort, schedule_constraint := 0,
               sschedCache := some 10800, stloggedCache := some 0,
               tstart := 0, tend := 86400, priority := 500 }
      else if i = 1 then
        some { parentId := some 0, childrenIds := [3], dependsIds := [], resourcesIds := [],
               timeLogIds := [], schedule_timing := 1, schedule_unit := SUnit.uh,
               schedule_model := SModel.effort, schedule_constraint := 0,
               sschedCache := some 7200, stloggedCache := some 0,
               tstart := 0, tend := 86400, priority := 500 }
      else if i = 2 then
        some { parentId := some 0, childrenIds := [4], dependsIds := [], resourcesIds := [],
               timeLogIds := [], schedule_timing := 1, schedule_unit := SUnit.uh,
               schedule_model := SModel.effort, schedule_constraint := 0,
               sschedCache := some 3600, stloggedCache := some 0,
               tstart := 0, tend := 86400, priority := 500 }
      else if i = 3 then
        some { parentId := some 1, childrenIds := [], dependsIds := [], resourcesIds := [],
               timeLogIds := [], schedule_timing := 2, schedule_unit := SUnit.uh,
               schedule_model := SModel.effort, schedule_constraint := 0,
               sschedCache := none, stloggedCache := none,
               tstart := 0, tend := 7200, priority := 500 }
      else if i = 4 then
        some { parentId := some 2, childrenIds := [], dependsIds := [], resourcesIds := [],
               timeLogIds := [], schedule_timing := 1, schedule_unit := SUnit.uh,
               schedule_model := SModel.effort, schedule_constraint := 0,
               sschedCache := none, stloggedCache := none,
               tstart := 0, tend := 3600, priority := 500 }
      else none,
    tlog := fun _ => none,
    logIds := [] }

/-- C6 witness: moving the 2 hour leaf 3 from container 1 to container 2
commits, drops the cache of task 1 from 7200 to 0, raises the cache of
task 2 from 3600 to 10800, and leaves the root cache 10800 unchanged. -/
theorem C6_container_reparent_shifts_caches_witness :
    ∃ sF, setParent 31 stateC6b 3 (some 2) 50 = Except.ok sF ∧
      schedCacheOf sF 1 = some 0 ∧
      schedCacheOf sF 2 = some 10800 ∧
      (∀ j tj, stateC6b.task j = some tj → tj.parentId = none →
        schedCacheOf sF j = schedCacheOf stateC6b j) := by
  obtain ⟨sF, h1, h2, h3, h4⟩ := C6_container_reparent_shifts_caches 30 stateC6b 3 1 2
    [0] [0] 50
    { parentId := some 1, childrenIds := [], dependsIds := [], resourcesIds := [],
      timeLogIds := [], schedule_timing := 2, schedule_unit := SUnit.uh,
      schedule_model := SModel.effort, schedule_constraint := 0,
      sschedCache := none, stloggedCache := none,
      tstart := 0, tend := 7200, priority := 500 }
    { parentId := some 0, childrenIds := [3], dependsIds := [], resourcesIds := [],
      timeLogIds := [], schedule_timing := 1, schedule_unit := SUnit.uh,
      schedule_model := SModel.effort, schedule_constraint := 0,
      sschedCache := some 7200, stloggedCache := some 0,
      tstart := 0, tend := 86400, priority := 500 }
    { parentId := some 0, childrenIds := [4], dependsIds := [], resourcesIds := [],
      timeLogIds := [], schedule_timing := 1, schedule_unit := SUnit.uh,
      schedule_model := SModel.effort, schedule_constraint := 0,
      sschedCache := some 3600, stloggedCache := some 0,
      tstart := 0, tend := 86400, priority := 500 }
    7200 0 3600 0
    rfl rfl rfl rfl rfl rfl (by decide) rfl rfl rfl (by decide) rfl
    (AncChain.step _ rfl rfl (AncChain.root _ rfl rfl))
    (AncChain.step _ rfl rfl (AncChain.root _ rfl rfl))
    (by decide) (by decide)
    (by
      intro j hj
      have hj0 : j = 0 := by simpa using hj
      subst hj0
      exact ⟨10800, rfl, by decide⟩)
    (by
      intro j hj
      have hj0 : j = 0 := by simpa using hj
      subst hj0
      exact ⟨10800, rfl, by decide⟩)
    (by
      intro j hj
      have hj0 : j = 0 := by simpa using hj
      subst hj0
      exact ⟨0, rfl⟩)
    (by
      intro j hj
      have hj0 : j = 0 := by simpa using hj
      subst hj0
      exact ⟨0, rfl⟩)
    (by decide) (by decide) (by decide) (by decide) (by decide) (by decide)
    rfl (by decide) (by decide)
  refine ⟨sF, h1, ?_, ?_, h4⟩
  · rw [h2]
    rfl
  · rw [h3]
    rfl

/-- Range expansion without a parent does nothing at any fuel. -/
theorem expandDates_none (f : Nat) (s : State) (st en : Int) :
    expandDates f s none st en = s := by
  cases f <;> rfl

/-- Arena for the C8 counterexample: container 0 with range 0 to 100 holds
the single child 1 with the same range. -/
def stateC8 : State :=
  { task := fun i =>
      if i = 0 then
        some { parentId := none, childrenIds := [1], dependsIds := [], resourcesIds := [],
               timeLogIds := [], schedule_timing := 1, schedule_unit := SUnit.uh,
               schedule_model := SModel.effort, schedule_constraint := 0,
               sschedCache := some 3600, stloggedCache := some 0,
               tstart := 0, tend := 100, priority := 500 }
      else if i = 1 then
        some { parentId := some 0, childrenIds := [], dependsIds := [], resourcesIds := [],
               timeLogIds := [], schedule_timing := 1, schedule_unit := SUnit.uh,
               schedule_model := SModel.effort, schedule_constraint := 0,
               sschedCache := none, stloggedCache := none,
               tstart := 0, tend := 100, priority := 500 }
      else none,
    tlog := fun _ => none,
    logIds := [] }

/-- C8 counterexample: removing the last remaining child 1 of container 0
(by reparenting it away) at current time 50 leaves the former container a
childless leaf and sets its start to 50, but the end stays at the old value
100 instead of collapsing to the current time: only the start is written to
now, and the date reconciliation keeps an end that is not earlier than the
new start. -/
theorem C8_last_child_end_stays :
    (setParent 30 stateC8 1 none 50).toOption.map (fun s =>
      (s.task 0).map (fun t => (t.tstart, t.tend, t.childrenIds))) =
      some (some (50, 100, [])) ∧
    (100 : Int) ≠ 50 := by
  refine ⟨by rfl, by decide⟩

/-- C8 amended: the child-removal date handler on a root container either
finds no remaining child, in which case the start is set to the current
time and the end only moves up to the current time when it was earlier
(it keeps its old value otherwise, so the range does not collapse to now
in general), or it finds remaining children and sets the range to exactly
their envelope, the fold of minimum start and maximum end. -/
theorem C8_child_removal_date_values (f : Nat) (s : State) (i removed : Nat) (now : Int)
    (t : TaskData) (mn mx : Int)
    (ht : s.task i = some t)
    (hroot : t.parentId = none)
    (hmm : t.childrenIds.foldl
        (fun (acc : Int × Int) c =>
          if c = removed then acc
          else
            match s.task c with
            | none => acc
            | some tc =>
              (if tc.tstart < acc.1 then tc.tstart else acc.1,
               if tc.tend > acc.2 then tc.tend else acc.2))
        (dtepochMax, dtepochMin) = (mn, mx)) :
    (¬(mn ≠ dtepochMax ∧ mx ≠ dtepochMin) →
      (updateTaskDateValues (f + 1) s i removed now).task i =
        some { t with tstart := now, tend := if t.tend < now then now else t.tend }) ∧
    ((mn ≠ dtepochMax ∧ mx ≠ dtepochMin) → mn ≤ mx →
      (updateTaskDateValues (f + 1) s i removed now).task i =
        some { t with tstart := mn, tend := mx }) := by
  unfold updateTaskDateValues
  rw [ht]
  dsimp only
  rw [hmm]
  constructor
  · intro hne
    rw [if_neg hne]
    unfold taskStartSet
    rw [ht]
    dsimp only
    unfold validateDates
    dsimp only
    rw [hroot, expandDates_none, upTask_task_self]
  · intro hp hle
    rw [if_pos hp]
    unfold taskEndSet
    unfold taskStartSet
    rw [ht]
    dsimp only
    unfold validateDates
    dsimp only
    rw [hroot, expandDates_none, upTask_task_self]
    dsimp only
    rw [expandDates_none, upTask_task_self]
    rw [if_neg (Int.not_lt.2 hle)]

/-- C8 witness: in stateC8 the fold over the children of task 0 with child
1 removed finds nothing, so the range becomes start 50 and end 100 (the
old end 100 is not earlier than 50 and is kept). -/
theorem C8_child_removal_date_values_witness :
    (updateTaskDateValues 30 stateC8 0 1 50).task 0 =
      some { parentId := none, childrenIds := [1], dependsIds := [], resourcesIds := [],
             timeLogIds := [], schedule_timing := 1, schedule_unit := SUnit.uh,
             schedule_model := SModel.effort, schedule_constraint := 0,
             sschedCache := some 3600, stloggedCache := some 0,
             tstart := 50, tend := 100, priority := 500 } := by
  have h := (C8_child_removal_date_values 29 stateC8 0 1 50
    { parentId := none, childrenIds := [1], dependsIds := [], resourcesIds := [],
      timeLogIds := [], schedule_timing := 1, schedule_unit := SUnit.uh,
      schedule_model := SModel.effort, schedule_constraint := 0,
      sschedCache := some 3600, stloggedCache := some 0,
      tstart := 0, tend := 100, priority := 500 }
    dtepochMax dtepochMin rfl rfl (by decide)).1 (by decide)
  rw [h]
  rfl

/-- Erases the two cache columns of one task record. -/
def stripC (t : TaskData) : TaskData :=
  { t with sschedCache := none, stloggedCache := none }

/-- Two states with the same structure: every task row agrees outside the
two cache columns, and the log table and id list agree. -/
def SEq (s s' : State) : Prop :=
  (∀ j, (s.task j).map stripC = (s'.task j).map stripC) ∧
  s.tlog = s'.tlog ∧ s.logIds = s'.logIds

theorem SEq_refl (s : State) : SEq s s :=
  ⟨fun _ => rfl, rfl, rfl⟩

theorem SEq_symm {a b : State} (h : SEq a b) : SEq b a :=
  ⟨fun j => (h.1 j).symm, h.2.1.symm, h.2.2.symm⟩

theorem SEq_trans {a b c : State} (h1 : SEq a b) (h2 : SEq b c) : SEq a c :=
  ⟨fun j => (h1.1 j).trans (h2.1 j), h1.2.1.trans h2.2.1, h1.2.2.trans h2.2.2⟩

/-- Field projections through a cache-stripped record equality. -/
theorem stripC_fields {t1 t2 : TaskData} (h : stripC t1 = stripC t2) :
    t1.childrenIds = t2.childrenIds ∧ t1.timeLogIds = t2.timeLogIds ∧
    t1.schedule_timing = t2.schedule_timing ∧ t1.schedule_unit = t2.schedule_unit ∧
    t1.schedule_model = t2.schedule_model := by
  refine ⟨?_, ?_, ?_, ?_, ?_⟩
  · have h2 := congrArg TaskData.childrenIds h
    exact h2
  · have h2 := congrArg TaskData.timeLogIds h
    exact h2
  · have h2 := congrArg TaskData.schedule_timing h
    exact h2
  · have h2 := congrArg TaskData.schedule_unit h
    exact h2
  · have h2 := congrArg TaskData.schedule_model h
    exact h2

/-- Task rows of structurally equal states pair up. -/
theorem SEq_task {s s' : State} (h : SEq s s') (i : Nat) :
    (s.task i = none → s'.task i = none) ∧
    (∀ t, s.task i = some t → ∃ t', s'.task i = some t' ∧ stripC t = stripC t') := by
  have hj := h.1 i
  constructor
  · intro hn
    rw [hn] at hj
    cases hx : s'.task i with
    | none => rfl
    | some t' => rw [hx] at hj; simp at hj
  · intro t hsome
    rw [hsome] at hj
    cases hx : s'.task i with
    | none => rw [hx] at hj; simp at hj
    | some t' =>
      rw [hx] at hj
      simp only [Option.map_some'] at hj
      exact ⟨t', rfl, Option.some.inj hj⟩

/-- Container status agrees across structurally equal states. -/
theorem SEq_isContainer {s s' : State} (h : SEq s s') (i : Nat) :
    isContainer s i = isContainer s' i := by
  unfold isContainer
  have hj := h.1 i
  cases hx : s.task i with
  | none =>
    rw [hx] at hj
    cases hy : s'.task i with
    | none => rfl
    | some t' => rw [hy] at hj; simp at hj
  | some t =>
    rw [hx] at hj
    cases hy : s'.task i with
    | none => rw [hy] at hj; simp at hj
    | some t' =>
      rw [hy] at hj
      simp only [Option.map_some'] at hj
      dsimp only
      rw [(stripC_fields (Option.some.inj hj)).1]

/-- The leaf logged sum agrees across structurally equal states for
records that agree outside the caches. -/
theorem SEq_leafLogged {s s' : State} (h : SEq s s') {t t' : TaskData}
    (hst : stripC t = stripC t') :
    leafLoggedSeconds s t = leafLoggedSeconds s' t' := by
  unfold leafLoggedSeconds
  rw [(stripC_fields hst).2.1, h.2.1]

/-- The children loop of update_schedule_info stays structurally equal to
its input when every step function does. -/
theorem usiLoop_strip (upd : State → Nat → State) (sget tget : State → Nat → State × Int)
    (hu : ∀ s c, SEq (upd s c) s)
    (hs : ∀ s c, SEq (sget s c).1 s)
    (htg : ∀ s c, SEq (tget s c).1 s) :
    ∀ (C : List Nat) (s : State) (a b : Int),
      SEq (usiLoop upd sget tget s C a b).1 s := by
  intro C
  induction C with
  | nil => intro s a b; exact SEq_refl s
  | cons c rest ih =>
    intro s a b
    unfold usiLoop
    dsimp only
    refine SEq_trans (ih _ _ _) ?_
    repeat
      first
      | exact SEq_refl _
      | exact hu _ _
      | refine SEq_trans (hu _ _) ?_
      | refine SEq_trans (hs _ _) ?_
      | refine SEq_trans (htg _ _) ?_
      | split

/-- Writing only the cache columns of one row keeps the structure. -/
theorem modTask_cache_SEq (s : State) (i : Nat) (g : TaskData → TaskData)
    (hg : ∀ t, stripC (g t) = stripC t) : SEq (modTask s i g) s := by
  unfold modTask
  cases ht : s.task i with
  | none => exact SEq_refl s
  | some t =>
    refine ⟨?_, rfl, rfl⟩
    intro j
    by_cases hj : j = i
    · subst hj
      rw [upTask_task_self, ht]
      simp only [Option.map_some']
      rw [hg t]
    · rw [upTask_task_ne _ _ _ _ hj]

/-- update_schedule_info and the two lazy getters only rewrite cache
columns: the resulting state is structurally equal to the input. -/
theorem usi_strip : ∀ f : Nat,
    (∀ s i, SEq (updateScheduleInfo f s i) s) ∧
    (∀ s i, SEq (scheduleSecondsGet f s i).1 s) ∧
    (∀ s i, SEq (totalLoggedGet f s i).1 s) := by
  intro f
  induction f with
  | zero => exact ⟨fun s _ => SEq_refl s, fun s _ => SEq_refl s, fun s _ => SEq_refl s⟩
  | succ f ih =>
    obtain ⟨ihU, ihS, ihT⟩ := ih
    refine ⟨?_, ?_, ?_⟩
    · intro s i
      unfold updateScheduleInfo
      cases ht : s.task i with
      | none => exact SEq_refl s
      | some t =>
        dsimp only
        split
        · refine ⟨?_, rfl, rfl⟩
          intro j
          by_cases hj : j = i
          · subst hj
            rw [upTask_task_self, ht]
            rfl
          · rw [upTask_task_ne _ _ _ _ hj]
        · refine SEq_trans (modTask_cache_SEq _ _ _ (fun t => rfl)) ?_
          exact usiLoop_strip _ _ _ (fun s c => ihU s c) (fun s c => ihS s c)
            (fun s c => ihT s c) t.childrenIds s 0 0
    · intro s i
      unfold scheduleSecondsGet
      cases ht : s.task i with
      | none => exact SEq_refl s
      | some t =>
        dsimp only
        split
        · exact SEq_refl s
        · cases hc : t.sschedCache with
          | none =>
            dsimp only
            exact ihU s i
          | some v =>
            dsimp only
            split
            · exact ihU s i
            · exact SEq_refl s
    · intro s i
      unfold totalLoggedGet
      cases ht : s.task i with
      | none => exact SEq_refl s
      | some t =>
        dsimp only
        split
        · exact SEq_refl s
        · cases hc : t.stloggedCache with
          | none =>
            dsimp only
            exact ihU s i
          | some v =>
            dsimp only
            exact SEq_refl s

/-- Cache column agreement of one row across two states. -/
def cachesEqAt (s s' : State) (i : Nat) : Prop :=
  schedCacheOf s i = schedCacheOf s' i ∧ loggedCacheOf s i = loggedCacheOf s' i

/-- One truthy-guarded double getter read of the update loop, run on two
structurally equal states whose relevant caches agree, returns equal sums
and structurally equal states whose relevant caches agree. -/
theorem usiLoop_pairStep
    {sget sget' : State → Nat → State × Int} (c : Nat)
    (HgP : ∀ s k, SEq (sget s k).1 s)
    (Hg : ∀ s s' k, SEq s s' → (isContainer s k = true → cachesEqAt s s' k) →
      (sget s k).2 = (sget' s' k).2 ∧ SEq (sget s k).1 (sget' s' k).1 ∧
      (isContainer s k = true → cachesEqAt (sget s k).1 (sget' s' k).1 k))
    (s1 s1' : State) (a : Int) (h : SEq s1 s1')
    (hc : isContainer s1 c = true → cachesEqAt s1 s1' c) :
    SEq (if (sget s1 c).2 ≠ 0 then ((sget (sget s1 c).1 c).1, a + (sget (sget s1 c).1 c).2)
         else ((sget s1 c).1, a)).1
        (if (sget' s1' c).2 ≠ 0 then
           ((sget' (sget' s1' c).1 c).1, a + (sget' (sget' s1' c).1 c).2)
         else ((sget' s1' c).1, a)).1 ∧
    (if (sget s1 c).2 ≠ 0 then ((sget (sget s1 c).1 c).1, a + (sget (sget s1 c).1 c).2)
     else ((sget s1 c).1, a)).2 =
      (if (sget' s1' c).2 ≠ 0 then
         ((sget' (sget' s1' c).1 c).1, a + (sget' (sget' s1' c).1 c).2)
       else ((sget' s1' c).1, a)).2 ∧
    (isContainer (if (sget s1 c).2 ≠ 0 then
        ((sget (sget s1 c).1 c).1, a + (sget (sget s1 c).1 c).2)
      else ((sget s1 c).1, a)).1 c = true →
      cachesEqAt (if (sget s1 c).2 ≠ 0 then
          ((sget (sget s1 c).1 c).1, a + (sget (sget s1 c).1 c).2)
        else ((sget s1 c).1, a)).1
        (if (sget' s1' c).2 ≠ 0 then
           ((sget' (sget' s1' c).1 c).1, a + (sget' (sget' s1' c).1 c).2)
         else ((sget' s1' c).1, a)).1 c) ∧
    SEq (if (sget s1 c).2 ≠ 0 then ((sget (sget s1 c).1 c).1, a + (sget (sget s1 c).1 c).2)
         else ((sget s1 c).1, a)).1 s1 := by
  obtain ⟨hv, hs1, hcc⟩ := Hg s1 s1' c h hc
  by_cases hnz : (sget s1 c).2 ≠ 0
  · rw [if_pos hnz, if_pos (by rw [← hv]; exact hnz)]
    obtain ⟨hv2, hs2, hcc2⟩ := Hg (sget s1 c).1 (sget' s1' c).1 c hs1
      (fun hg => hcc (by rwa [SEq_isContainer (HgP s1 c) c] at hg))
    refine ⟨hs2, by rw [hv2], ?_, SEq_trans (HgP _ _) (HgP _ _)⟩
    intro hg
    refine hcc2 ?_
    rwa [SEq_isContainer (HgP (sget s1 c).1 c) c] at hg
  · rw [if_neg hnz, if_neg (by rw [← hv]; exact hnz)]
    refine ⟨hs1, rfl, ?_, HgP _ _⟩
    intro hg
    refine hcc ?_
    rwa [SEq_isContainer (HgP s1 c) c] at hg

/-- The children loop of update_schedule_info, run on two structurally
equal states with pairwise equivalent step functions, returns equal sums
and structurally equal states. -/
theorem usiLoop_pair
    (upd upd' : State → Nat → State) (sget sget' tget tget' : State → Nat → State × Int)
    (HsP : ∀ s c, SEq (sget s c).1 s)
    (HtP : ∀ s c, SEq (tget s c).1 s)
    (Hu : ∀ s s' c, SEq s s' → isContainer s c = true →
      SEq (upd s c) (upd' s' c) ∧ cachesEqAt (upd s c) (upd' s' c) c)
    (Hs : ∀ s s' c, SEq s s' → (isContainer s c = true → cachesEqAt s s' c) →
      (sget s c).2 = (sget' s' c).2 ∧ SEq (sget s c).1 (sget' s' c).1 ∧
      (isContainer s c = true → cachesEqAt (sget s c).1 (sget' s' c).1 c))
    (Ht : ∀ s s' c, SEq s s' → (isContainer s c = true → cachesEqAt s s' c) →
      (tget s c).2 = (tget' s' c).2 ∧ SEq (tget s c).1 (tget' s' c).1 ∧
      (isContainer s c = true → cachesEqAt (tget s c).1 (tget' s' c).1 c)) :
    ∀ (C : List Nat) (s s' : State) (a b : Int), SEq s s' →
      SEq (usiLoop upd sget tget s C a b).1 (usiLoop upd' sget' tget' s' C a b).1 ∧
      (usiLoop upd sget tget s C a b).2 = (usiLoop upd' sget' tget' s' C a b).2 := by
  intro C
  induction C with
  | nil =>
    intro s s' a b h
    exact ⟨h, rfl⟩
  | cons c rest ih =>
    intro s s' a b h
    unfold usiLoop
    dsimp only
    have hcont : isContainer s c = isContainer s' c := SEq_isContainer h c
    by_cases hic : isContainer s c = true
    · rw [if_pos hic, if_pos (show isContainer s' c = true by rw [← hcont]; exact hic)]
      obtain ⟨h1, hce1⟩ := Hu s s' c h hic
      obtain ⟨hQ2seq, hQ2val, hQ2guard, hQ2pres⟩ :=
        usiLoop_pairStep c HsP Hs (upd s c) (upd' s' c) a h1 (fun _ => hce1)
      obtain ⟨hQ4seq, hQ4val, hQ4guard, hQ4pres⟩ :=
        usiLoop_pairStep c HtP Ht _ _ b hQ2seq hQ2guard
      rw [← hQ2val, ← hQ4val]
      exact ih _ _ _ _ hQ4seq
    · rw [if_neg hic, if_neg (show ¬isContainer s' c = true by rw [← hcont]; exact hic)]
      obtain ⟨hQ2seq, hQ2val, hQ2guard, hQ2pres⟩ :=
        usiLoop_pairStep c HsP Hs s s' a h (fun hg => absurd hg hic)
      obtain ⟨hQ4seq, hQ4val, hQ4guard, hQ4pres⟩ :=
        usiLoop_pairStep c HtP Ht _ _ b hQ2seq hQ2guard
      rw [← hQ2val, ← hQ4val]
      exact ih _ _ _ _ hQ4seq

/-- At fuel zero the children loop is inert: the getters return zero, so
every child is skipped. -/
theorem usiLoop_zero : ∀ (C : List Nat) (s : State) (a b : Int),
    usiLoop (updateScheduleInfo 0) (scheduleSecondsGet 0) (totalLoggedGet 0) s C a b =
      (s, a, b) := by
  intro C
  induction C with
  | nil => intro s a b; rfl
  | cons c rest ih =>
    intro s a b
    unfold usiLoop
    have e1 : ∀ x : State, updateScheduleInfo 0 x c = x := fun _ => rfl
    have e2 : ∀ x : State, scheduleSecondsGet 0 x c = (x, (0 : Int)) := fun _ => rfl
    have e3 : ∀ x : State, totalLoggedGet 0 x c = (x, (0 : Int)) := fun _ => rfl
    simp only [e1, e2, e3, ite_self]
    norm_num
    exact ih s a b

/-- A task with a nonempty children list is a container. -/
theorem isContainer_of_children {s : State} {i : Nat} {t : TaskData}
    (ht : s.task i = some t) (hne : t.childrenIds.isEmpty = false) :
    isContainer s i = true := by
  unfold isContainer
  rw [ht]
  dsimp only
  rw [hne]
  rfl

/-- update_schedule_info and the two lazy getters are determined by the
structure: on two structurally equal states the update writes equal caches
at the target, and a getter whose relevant caches agree returns equal
values and keeps the cache agreement. -/
theorem usi_pair : ∀ f : Nat,
    (∀ s s' i, SEq s s' →
      SEq (updateScheduleInfo f s i) (updateScheduleInfo f s' i) ∧
      (∀ t, s.task i = some t → 1 ≤ f →
        cachesEqAt (updateScheduleInfo f s i) (updateScheduleInfo f s' i) i)) ∧
    (∀ s s' i, SEq s s' → (isContainer s i = true → cachesEqAt s s' i) →
      (scheduleSecondsGet f s i).2 = (scheduleSecondsGet f s' i).2 ∧
      SEq (scheduleSecondsGet f s i).1 (scheduleSecondsGet f s' i).1 ∧
      (isContainer s i = true →
        cachesEqAt (scheduleSecondsGet f s i).1 (scheduleSecondsGet f s' i).1 i)) ∧
    (∀ s s' i, SEq s s' → (isContainer s i = true → cachesEqAt s s' i) →
      (totalLoggedGet f s i).2 = (totalLoggedGet f s' i).2 ∧
      SEq (totalLoggedGet f s i).1 (totalLoggedGet f s' i).1 ∧
      (isContainer s i = true →
        cachesEqAt (totalLoggedGet f s i).1 (totalLoggedGet f s' i).1 i)) := by
  intro f
  induction f with
  | zero =>
    refine ⟨fun s s' i h => ⟨h, fun t ht h1 => absurd h1 (by omega)⟩,
      fun s s' i h hcc => ⟨rfl, h, fun hg => hcc hg⟩,
      fun s s' i h hcc => ⟨rfl, h, fun hg => hcc hg⟩⟩
  | succ f ih =>
    obtain ⟨ihU, ihS, ihT⟩ := ih
    refine ⟨?_, ?_, ?_⟩
    · intro s s' i h
      unfold updateScheduleInfo
      cases ht : s.task i with
      | none =>
        have ht' : s'.task i = none := (SEq_task h i).1 ht
        rw [ht']
        refine ⟨h, ?_⟩
        intro t htt h1
        cases htt
      | some t =>
        obtain ⟨t', ht', hstt⟩ := (SEq_task h i).2 t ht
        rw [ht']
        dsimp only
        have hch : t.childrenIds = t'.childrenIds := (stripC_fields hstt).1
        by_cases hemp : t.childrenIds.isEmpty = true
        · rw [if_pos hemp, if_pos (show t'.childrenIds.isEmpty = true by
            rw [← hch]; exact hemp)]
          constructor
          · refine ⟨?_, h.2.1, h.2.2⟩
            intro j
            by_cases hj : j = i
            · subst hj
              rw [upTask_task_self, upTask_task_self]
              simp only [Option.map_some']
              exact congrArg some hstt
            · rw [upTask_task_ne _ _ _ _ hj, upTask_task_ne _ _ _ _ hj]
              exact h.1 j
          · intro t0 ht0 hf
            constructor
            · unfold schedCacheOf
              rw [upTask_task_self, upTask_task_self]
              simp only [Option.some_bind]
              rw [(stripC_fields hstt).2.2.1, (stripC_fields hstt).2.2.2.1,
                  (stripC_fields hstt).2.2.2.2]
            · unfold loggedCacheOf
              rw [upTask_task_self, upTask_task_self]
              simp only [Option.some_bind]
              exact congrArg some (SEq_leafLogged h hstt)
        · have hempf : t.childrenIds.isEmpty = false := by
            cases hx : t.childrenIds.isEmpty with
            | false => rfl
            | true => exact absurd hx hemp
          rw [if_neg hemp, if_neg (show ¬t'.childrenIds.isEmpty = true by
            rw [← hch]; exact hemp)]
          rw [← hch]
          cases f with
          | zero =>
            rw [usiLoop_zero, usiLoop_zero]
            dsimp only
            rw [modTask_eq _ _ _ _ ht, modTask_eq _ _ _ _ ht']
            constructor
            · refine ⟨?_, h.2.1, h.2.2⟩
              intro j
              by_cases hj : j = i
              · subst hj
                rw [upTask_task_self, upTask_task_self]
                simp only [Option.map_some']
                exact congrArg some hstt
              · rw [upTask_task_ne _ _ _ _ hj, upTask_task_ne _ _ _ _ hj]
                exact h.1 j
            · intro t0 ht0 hf
              constructor
              · unfold schedCacheOf
                rw [upTask_task_self, upTask_task_self]
                rfl
              · unfold loggedCacheOf
                rw [upTask_task_self, upTask_task_self]
                rfl
          | succ f2 =>
            have hlp := usiLoop_pair (updateScheduleInfo (f2 + 1)) (updateScheduleInfo (f2 + 1))
              (scheduleSecondsGet (f2 + 1)) (scheduleSecondsGet (f2 + 1))
              (totalLoggedGet (f2 + 1)) (totalLoggedGet (f2 + 1))
              (fun x c => (usi_strip (f2 + 1)).2.1 x c)
              (fun x c => (usi_strip (f2 + 1)).2.2 x c)
              (fun σ σ' c hσ hcσ => by
                refine ⟨(ihU σ σ' c hσ).1, ?_⟩
                have hrec : ∃ tc, σ.task c = some tc := by
                  unfold isContainer at hcσ
                  cases hx : σ.task c with
                  | none => rw [hx] at hcσ; cases hcσ
                  | some tc => exact ⟨tc, rfl⟩
                obtain ⟨tc, htc⟩ := hrec
                exact (ihU σ σ' c hσ).2 tc htc (by omega))
              (fun σ σ' c hσ hcσ => ihS σ σ' c hσ hcσ)
              (fun σ σ' c hσ hcσ => ihT σ σ' c hσ hcσ)
              t.childrenIds s s' 0 0 h
            obtain ⟨hseq, hval⟩ := hlp
            set r := usiLoop (updateScheduleInfo (f2 + 1)) (scheduleSecondsGet (f2 + 1))
              (totalLoggedGet (f2 + 1)) s t.childrenIds 0 0 with hr
            set r' := usiLoop (updateScheduleInfo (f2 + 1)) (scheduleSecondsGet (f2 + 1))
              (totalLoggedGet (f2 + 1)) s' t.childrenIds 0 0 with hr'
            have hpres : SEq r.1 s := by
              rw [hr]
              exact usiLoop_strip _ _ _ (fun x c => (usi_strip (f2 + 1)).1 x c)
                (fun x c => (usi_strip (f2 + 1)).2.1 x c)
                (fun x c => (usi_strip (f2 + 1)).2.2 x c) t.childrenIds s 0 0
            have hpres' : SEq r'.1 s' := by
              rw [hr']
              exact usiLoop_strip _ _ _ (fun x c => (usi_strip (f2 + 1)).1 x c)
                (fun x c => (usi_strip (f2 + 1)).2.1 x c)
                (fun x c => (usi_strip (f2 + 1)).2.2 x c) t.childrenIds s' 0 0
            obtain ⟨tr, htr, hstr⟩ := (SEq_task (SEq_symm hpres) i).2 t ht
            obtain ⟨tr', htr', hstr'⟩ := (SEq_task (SEq_symm hpres') i).2 t' ht'
            rw [modTask_eq _ _ _ _ htr, modTask_eq _ _ _ _ htr']
            constructor
            · refine ⟨?_, hseq.2.1, hseq.2.2⟩
              intro j
              by_cases hj : j = i
              · subst hj
                rw [upTask_task_self, upTask_task_self]
                simp only [Option.map_some']
                exact congrArg some ((hstr.symm.trans hstt).trans hstr')
              · rw [upTask_task_ne _ _ _ _ hj, upTask_task_ne _ _ _ _ hj]
                exact hseq.1 j
            · intro t0 ht0 hf
              constructor
              · unfold schedCacheOf
                rw [upTask_task_self, upTask_task_self]
                simp only [Option.some_bind]
                rw [hval]
              · unfold loggedCacheOf
                rw [upTask_task_self, upTask_task_self]
                simp only [Option.some_bind]
                rw [hval]
    · intro s s' i h hcc
      unfold scheduleSecondsGet
      cases ht : s.task i with
      | none =>
        have ht' : s'.task i = none := (SEq_task h i).1 ht
        rw [ht']
        exact ⟨rfl, h, fun hg => hcc hg⟩
      | some t =>
        obtain ⟨t', ht', hstt⟩ := (SEq_task h i).2 t ht
        rw [ht']
        dsimp only
        have hch : t.childrenIds = t'.childrenIds := (stripC_fields hstt).1
        by_cases hemp : t.childrenIds.isEmpty = true
        · rw [if_pos hemp, if_pos (show t'.childrenIds.isEmpty = true by
            rw [← hch]; exact hemp)]
          refine ⟨?_, h, fun hg => hcc hg⟩
          dsimp only
          rw [(stripC_fields hstt).2.2.1, (stripC_fields hstt).2.2.2.1,
              (stripC_fields hstt).2.2.2.2]
        · have hempf : t.childrenIds.isEmpty = false := by
            cases hx : t.childrenIds.isEmpty with
            | false => rfl
            | true => exact absurd hx hemp
          rw [if_neg hemp, if_neg (show ¬t'.childrenIds.isEmpty = true by
            rw [← hch]; exact hemp)]
          have hic : isContainer s i = true := isContainer_of_children ht hempf
          have hcaches := hcc hic
          have hsc : t.sschedCache = t'.sschedCache := by
            have h1 := hcaches.1
            unfold schedCacheOf at h1
            rw [ht, ht'] at h1
            exact h1
          rw [← hsc]
          have hceq : ∀ t0, s.task i = some t0 →
              cachesEqAt (updateScheduleInfo f s i) (updateScheduleInfo f s' i) i := by
            intro t0 ht0
            cases f with
            | zero => exact hcaches
            | succ f2 => exact (ihU s s' i h).2 t0 ht0 (by omega)
          cases hcs : t.sschedCache with
          | none =>
            dsimp only
            refine ⟨?_, (ihU s s' i h).1, fun _ => hceq t ht⟩
            rw [(hceq t ht).1]
          | some v =>
            dsimp only
            by_cases hv : v < 0
            · rw [if_pos hv, if_pos hv]
              refine ⟨?_, (ihU s s' i h).1, fun _ => hceq t ht⟩
              rw [(hceq t ht).1]
            · rw [if_neg hv, if_neg hv]
              exact ⟨rfl, h, fun _ => hcaches⟩
    · intro s s' i h hcc
      unfold totalLoggedGet
      cases ht : s.task i with
      | none =>
        have ht' : s'.task i = none := (SEq_task h i).1 ht
        rw [ht']
        exact ⟨rfl, h, fun hg => hcc hg⟩
      | some t =>
        obtain ⟨t', ht', hstt⟩ := (SEq_task h i).2 t ht
        rw [ht']
        dsimp only
        have hch : t.childrenIds = t'.childrenIds := (stripC_fields hstt).1
        by_cases hemp : t.childrenIds.isEmpty = true
        · rw [if_pos hemp, if_pos (show t'.childrenIds.isEmpty = true by
            rw [← hch]; exact hemp)]
          refine ⟨?_, h, fun hg => hcc hg⟩
          dsimp only
          exact SEq_leafLogged h hstt
        · have hempf : t.childrenIds.isEmpty = false := by
            cases hx : t.childrenIds.isEmpty with
            | false => rfl
            | true => exact absurd hx hemp
          rw [if_neg hemp, if_neg (show ¬t'.childrenIds.isEmpty = true by
            rw [← hch]; exact hemp)]
          have hic : isContainer s i = true := isContainer_of_children ht hempf
          have hcaches := hcc hic
          have hsc : t.stloggedCache = t'.stloggedCache := by
            have h1 := hcaches.2
            unfold loggedCacheOf at h1
            rw [ht, ht'] at h1
            exact h1
          rw [← hsc]
          have hceq : ∀ t0, s.task i = some t0 →
              cachesEqAt (updateScheduleInfo f s i) (updateScheduleInfo f s' i) i := by
            intro t0 ht0
            cases f with
            | zero => exact hcaches
            | succ f2 => exact (ihU s s' i h).2 t0 ht0 (by omega)
          cases hcs : t.stloggedCache with
          | none =>
            dsimp only
            refine ⟨?_, (ihU s s' i h).1, fun _ => hceq t ht⟩
            rw [(hceq t ht).2]
          | some v =>
            dsimp only
            exact ⟨rfl, h, fun _ => hcaches⟩

/-- C9: update_schedule_info is idempotent on the cache columns: running it
twice in succession on any task of any state leaves the same cached
_schedule_seconds and _total_logged_seconds values at that task as running
it once, at every recursion budget. -/
theorem C9_update_schedule_info_idempotent (f : Nat) (s : State) (i : Nat) :
    schedCacheOf (updateScheduleInfo f (updateScheduleInfo f s i) i) i =
      schedCacheOf (updateScheduleInfo f s i) i ∧
    loggedCacheOf (updateScheduleInfo f (updateScheduleInfo f s i) i) i =
      loggedCacheOf (updateScheduleInfo f s i) i := by
  cases f with
  | zero => exact ⟨rfl, rfl⟩
  | succ f2 =>
    cases ht : s.task i with
    | none =>
      have h1 : updateScheduleInfo (f2 + 1) s i = s := by
        unfold updateScheduleInfo
        rw [ht]
      rw [h1]
      rw [h1]
      exact ⟨rfl, rfl⟩
    | some t =>
      have hSE : SEq s (updateScheduleInfo (f2 + 1) s i) :=
        SEq_symm ((usi_strip (f2 + 1)).1 s i)
      have hpair := ((usi_pair (f2 + 1)).1 s (updateScheduleInfo (f2 + 1) s i) i hSE).2 t ht
        (by omega)
      exact ⟨hpair.1.symm, hpair.2.symm⟩

end Stalker
